import Mathlib

/-!
# ry: terminal control layer (`main.c`)

A shallow embedding of `main.c`:

* the key decoder (`read_key`, `lnext_keypress`),
* the raw-mode controller (`enable_raw_mode`, `disable_raw_mode`),
* the geometry prober (`cursor_position`, `screen_size`, `lscreen_size`).

Conventions.

* Bytes are natural numbers below 256; C `int` values are integers; 32-bit
  flag words are natural numbers, with the wrap-around written out.
* The input on file descriptor 0 is a list of read results: each call of
  `read(fd, p, 1)` takes the head of the list.  An exhausted list answers
  every further read with 0 (nothing available, ever).
* `exit` is an outcome of its own: the function does not return.
-/

namespace Ry

/-! ## Key codes (`enum KEY_ACTION`) -/

def KEY_NULL : Int := 0
def CTRL_C : Int := 3
def CTRL_D : Int := 4
def CTRL_F : Int := 6
def CTRL_H : Int := 8
def TAB : Int := 9
def CTRL_L : Int := 12
def ENTER : Int := 13
def CTRL_Q : Int := 17
def CTRL_S : Int := 19
def CTRL_U : Int := 21
def ESC : Int := 27
def BACKSPACE : Int := 127
def ARROW_LEFT : Int := 1000
def ARROW_RIGHT : Int := 1001
def ARROW_UP : Int := 1002
def ARROW_DOWN : Int := 1003
def DEL_KEY : Int := 1004
def HOME_KEY : Int := 1005
def END_KEY : Int := 1006
def PAGE_UP : Int := 1007
def PAGE_DOWN : Int := 1008

/-! ## The input stream -/

/-- One answer of `read(fd, p, 1)`: a byte (return value 1), nothing within
the timeout (return value 0), or a hard failure (return value -1). -/
inductive Rd where
  | byte (b : Nat)
  | timeout
  | fail
  deriving DecidableEq, Repr

/-- Return value of `read(fd, p, 1)` for one answer. -/
def Rd.nread : Rd → Int
  | .byte _ => 1
  | .timeout => 0
  | .fail => -1

/-- How a call ends: it returns a value, the process exits with a status, or
the call spins forever (every remaining read answers 0).  `rest` is the input
not yet read. -/
inductive Outcome (α : Type) where
  | ret (v : α) (rest : List Rd)
  | exit (status : Int) (rest : List Rd)
  | hang
  deriving DecidableEq, Repr

/-- Contents of `char seq[3]` in `read_key`.  The array is not initialised by
the code, so its first contents are arbitrary. -/
structure Seq where
  s0 : Nat
  s1 : Nat
  s2 : Nat
  deriving DecidableEq, Repr

/-- Effect of `read(fd, seq, 1)` on the buffer: a byte is stored, otherwise
the cell keeps what it held. -/
def Seq.rd0 (q : Seq) : Rd → Seq
  | .byte b => { q with s0 := b }
  | _ => q

/-- Effect of `read(fd, seq+1, 1)` on the buffer. -/
def Seq.rd1 (q : Seq) : Rd → Seq
  | .byte b => { q with s1 := b }
  | _ => q

/-- Effect of `read(fd, seq+2, 1)` on the buffer. -/
def Seq.rd2 (q : Seq) : Rd → Seq
  | .byte b => { q with s2 := b }
  | _ => q

/-- Value of a `char` holding byte `b` when converted to `int`; `sgn` tells
whether plain `char` is signed on the platform. -/
def charToInt (sgn : Bool) (b : Nat) : Int :=
  if sgn && decide (128 ≤ b) then (b : Int) - 256 else (b : Int)

/-- Conversion of an `int` to the byte stored in a `char`. -/
def intToChar (c : Int) : Nat := (c % 256).toNat

/-! ## `read_key` -/

/-- One call of `read(fd, p, 1)` on the input: the answer and the input left.
An exhausted input answers 0. -/
def read : List Rd → Rd × List Rd
  | [] => (.timeout, [])
  | r :: s => (r, s)

/-- How one turn of the `while(1)` loop of `read_key` ends when `c` is ESC:
with a `return`, or with the `break` that leaves the `switch` and starts the
next turn. -/
inductive Turn where
  | ret (key : Int) (rest : List Rd)
  | again (q : Seq) (rest : List Rd)
  deriving DecidableEq, Repr

/-- The `case ESC:` branch of the `switch(c)` in `read_key`, up to its `break`.
`q` is the content of `seq` when the branch is entered. -/
def esc_case (q : Seq) (s : List Rd) : Turn :=
  -- if (read(fd, seq, 1) == 0) return ESC;
  let r0 := read s
  if r0.1.nread = 0 then .ret ESC r0.2 else
  let q := q.rd0 r0.1
  -- if (read(fd, seq+1, 1) == 0) return ESC;
  let r1 := read r0.2
  if r1.1.nread = 0 then .ret ESC r1.2 else
  let q := q.rd1 r1.1
  if q.s0 = 91 then
    if 48 ≤ q.s1 ∧ q.s1 ≤ 57 then
      -- if (read(fd, seq+2, 1) == 0) return ESC;
      let r2 := read r1.2
      if r2.1.nread = 0 then .ret ESC r2.2 else
      let q := q.rd2 r2.1
      if q.s2 = 126 then
        if q.s1 = 51 then .ret DEL_KEY r2.2
        else if q.s1 = 53 then .ret PAGE_UP r2.2
        else if q.s1 = 54 then .ret PAGE_DOWN r2.2
        else .again q r2.2
      else .again q r2.2
    else
      if q.s1 = 65 then .ret ARROW_UP r1.2
      else if q.s1 = 66 then .ret ARROW_DOWN r1.2
      else if q.s1 = 67 then .ret ARROW_RIGHT r1.2
      else if q.s1 = 68 then .ret ARROW_LEFT r1.2
      else if q.s1 = 72 then .ret HOME_KEY r1.2
      else if q.s1 = 70 then .ret END_KEY r1.2
      else .again q r1.2
  else if q.s0 = 79 then
    if q.s1 = 72 then .ret HOME_KEY r1.2
    else if q.s1 = 70 then .ret END_KEY r1.2
    else .again q r1.2
  else .again q r1.2

/-- The `while(1)` loop of `read_key` once `c` holds ESC, run for at most `n`
turns.  `c` is never assigned inside the loop, so every turn takes the
`case ESC` branch again. -/
def esc_loop : Nat → Seq → List Rd → Outcome Int
  | 0, _, _ => .hang
  | n + 1, q, s =>
    match esc_case q s with
    | .ret key rest => .ret key rest
    | .again q' rest => esc_loop n q' rest

/-- The `while(1)` loop of `read_key` once `c` holds ESC.  A turn that ends in
`break` has read at least two answers, so `s.length + 1` turns are never used
up (`esc_loop_enough`). -/
def read_key_esc (q : Seq) (s : List Rd) : Outcome Int :=
  esc_loop (s.length + 1) q s

/-- The body of `read_key` after the first byte `c` has been read. -/
def read_key_switch (sgn : Bool) (q : Seq) (c : Nat) (s : List Rd) : Outcome Int :=
  if charToInt sgn c = ESC then read_key_esc q s else .ret (charToInt sgn c) s

/-- `int read_key()`: `while ((nread = read(fd, &c, 1)) == 0);` then
`if (nread == -1) exit(1);` then the decoding loop. -/
def read_key (sgn : Bool) (q : Seq) : List Rd → Outcome Int
  | [] => .hang
  | .timeout :: s => read_key sgn q s
  | .fail :: s => .exit 1 s
  | .byte c :: s => read_key_switch sgn q c s

/-! ## `lnext_keypress` -/

/-- Bytes of a string literal (ASCII). -/
def lit (s : String) : List Nat := s.toList.map Char.toNat

/-- What `lua_pushstring(L, s)` pushes for `char s[2] = "\0\0"; s[0] = c;`:
the bytes of `s` up to the first NUL. -/
def charString (c : Int) : List Nat :=
  if intToChar c = 0 then [] else [intToChar c]

/-- The `switch(c)` of `lnext_keypress`: the Lua string pushed for key code
`c`, or `none` where the branch is `exit(1)`. -/
def keyName (c : Int) : Option (List Nat) :=
  if c = ESC then some (lit "esc")
  else if c = DEL_KEY then some (lit "del")
  else if c = ENTER then some (lit "enter")
  else if c = BACKSPACE then some (lit "backspace")
  else if c = TAB then some (lit "tab")
  else if c = PAGE_UP then some (lit "pageup")
  else if c = PAGE_DOWN then some (lit "pagedown")
  else if c = ARROW_UP then some (lit "up")
  else if c = ARROW_DOWN then some (lit "down")
  else if c = ARROW_LEFT then some (lit "left")
  else if c = ARROW_RIGHT then some (lit "right")
  else if c = CTRL_C then none
  else if c = CTRL_D then some (lit "ctrl-d")
  else if c = CTRL_F then some (lit "ctrl-f")
  else if c = CTRL_H then some (lit "ctrl-h")
  else if c = CTRL_Q then some (lit "ctrl-q")
  else if c = CTRL_S then some (lit "ctrl-s")
  else if c = CTRL_U then some (lit "ctrl-u")
  else some (charString c)

/-- `lnext_keypress`: the string left on the Lua stack (one result), or the
process exit. -/
def lnext_keypress (sgn : Bool) (q : Seq) (s : List Rd) : Outcome (List Nat) :=
  match read_key sgn q s with
  | .ret c rest =>
    match keyName c with
    | some name => .ret name rest
    | none => .exit 1 rest
  | .exit st rest => .exit st rest
  | .hang => .hang

/-- The single-byte control codes that `lnext_keypress` names: byte, key code
of `enum KEY_ACTION`, event name. -/
def controlTable : List (Nat × Int × String) :=
  [(4, CTRL_D, "ctrl-d"), (6, CTRL_F, "ctrl-f"), (8, CTRL_H, "ctrl-h"), (9, TAB, "tab"),
   (13, ENTER, "enter"), (17, CTRL_Q, "ctrl-q"), (19, CTRL_S, "ctrl-s"),
   (21, CTRL_U, "ctrl-u"), (127, BACKSPACE, "backspace")]

/-! ## Raw-mode controller

The terminal behind file descriptor 0 and the two statics of `main.c` form the
state.  `isatty`, `tcgetattr`, `tcsetattr` and `atexit` are library calls; they
are modelled after POSIX.  Whether a `tcgetattr` or `tcsetattr` call succeeds
is not decided by the program, so each call takes its success as an argument.
-/

/-- The members of `struct termios` named by POSIX.  Flag words are 32-bit
(`tcflag_t`), control characters are bytes (`cc_t`). -/
structure Termios where
  c_iflag : Nat
  c_oflag : Nat
  c_cflag : Nat
  c_lflag : Nat
  c_cc : List Nat
  deriving DecidableEq, Repr

/-- The constants of `<termios.h>` and `<errno.h>` that `enable_raw_mode`
names.  The headers are not part of the repository; the values are those of
the platform. -/
structure Consts where
  BRKINT : Nat
  ICRNL : Nat
  INPCK : Nat
  ISTRIP : Nat
  IXON : Nat
  OPOST : Nat
  CS8 : Nat
  ECHO : Nat
  ICANON : Nat
  IEXTEN : Nat
  ISIG : Nat
  VMIN : Nat
  VTIME : Nat
  ENOTTY : Int
  deriving DecidableEq, Repr

/-- The values of the constants on Linux (glibc, x86-64). -/
def linux : Consts where
  BRKINT := 0o2
  ICRNL := 0o400
  INPCK := 0o20
  ISTRIP := 0o40
  IXON := 0o2000
  OPOST := 0o1
  CS8 := 0o60
  ECHO := 0o10
  ICANON := 0o2
  IEXTEN := 0o100000
  ISIG := 0o1
  VMIN := 6
  VTIME := 5
  ENOTTY := 25

/-- The `optional_actions` argument of `tcsetattr`. -/
inductive OptionalActions where
  | TCSANOW
  | TCSADRAIN
  | TCSAFLUSH
  deriving DecidableEq, Repr

/-- The process and its terminal. -/
structure World where
  /-- `static int rawmode` -/
  rawmode : Int
  /-- `static struct termios orig_termios` -/
  orig_termios : Termios
  /-- attributes of the terminal behind file descriptor 0 -/
  tty : Termios
  /-- whether file descriptor 0 refers to a terminal -/
  isatty : Bool
  /-- input received by the terminal and not yet read -/
  inq : List Nat
  /-- number of times `disable_raw_mode` has been registered with `atexit` -/
  atexit : Nat
  /-- `errno` -/
  errno : Int
  /-- the attribute sets passed to `tcsetattr` so far, oldest first -/
  tcsets : List Termios
  deriving DecidableEq, Repr

/-- `x & ~m` on 32-bit words. -/
def clear32 (x m : Nat) : Nat := x &&& ((2 ^ 32 - 1) ^^^ (m % 2 ^ 32))

/-- `x | m` on 32-bit words. -/
def set32 (x m : Nat) : Nat := (x ||| m) % 2 ^ 32

/-- `tcsetattr(STDIN_FILENO, act, &t)`.  On success the terminal takes the
attributes `t`; with `TCSAFLUSH` the change is made after all output has been
transmitted and all input received but not read is discarded.  On failure
nothing changes and -1 is returned. -/
def tcsetattr (ok : Bool) (act : OptionalActions) (t : Termios) (w : World) : Int × World :=
  let w := { w with tcsets := w.tcsets ++ [t] }
  if ok then
    (0, { w with tty := t, inq := if act = .TCSAFLUSH then [] else w.inq })
  else (-1, w)

/-- The `fatal:` label of `enable_raw_mode`. -/
def enable_fatal (k : Consts) (w : World) : Int × World :=
  (-1, { w with errno := k.ENOTTY })

/-- `int enable_raw_mode()`.  `getOk` and `setOk` tell whether the `tcgetattr`
and the `tcsetattr` call succeed, should they be reached. -/
def enable_raw_mode (k : Consts) (getOk setOk : Bool) (w : World) : Int × World :=
  if w.rawmode ≠ 0 then (0, w) else
  if !w.isatty then enable_fatal k w else
  -- atexit(disable_raw_mode);
  let w := { w with atexit := w.atexit + 1 }
  -- if (tcgetattr(STDIN_FILENO, &orig_termios) == -1) goto fatal;
  if !getOk then enable_fatal k w else
  let w := { w with orig_termios := w.tty }
  let raw := w.orig_termios
  let raw := { raw with
    c_iflag := clear32 raw.c_iflag (k.BRKINT ||| k.ICRNL ||| k.INPCK ||| k.ISTRIP ||| k.IXON) }
  let raw := { raw with c_oflag := clear32 raw.c_oflag k.OPOST }
  let raw := { raw with c_cflag := set32 raw.c_cflag k.CS8 }
  let raw := { raw with
    c_lflag := clear32 raw.c_lflag (k.ECHO ||| k.ICANON ||| k.IEXTEN ||| k.ISIG) }
  let raw := { raw with c_cc := raw.c_cc.set k.VMIN 0 }
  let raw := { raw with c_cc := raw.c_cc.set k.VTIME 1 }
  -- if (tcsetattr(STDIN_FILENO, TCSAFLUSH, &raw) < 0) goto fatal;
  let r := tcsetattr setOk .TCSAFLUSH raw w
  if r.1 < 0 then enable_fatal k r.2 else
  (0, { r.2 with rawmode := 1 })

/-- `void disable_raw_mode()`.  `setOk` tells whether the `tcsetattr` call
succeeds, should it be reached; its return value is not looked at. -/
def disable_raw_mode (setOk : Bool) (w : World) : World :=
  if w.rawmode ≠ 0 then
    let r := tcsetattr setOk .TCSAFLUSH w.orig_termios w
    { r.2 with rawmode := 0 }
  else w

/-- A terminal in its usual cooked mode on Linux, with one byte typed ahead,
and the process before `main` has run. -/
def cookedWorld : World where
  rawmode := 0
  orig_termios := ⟨0, 0, 0, 0, []⟩
  tty := {
    c_iflag := 0o42400
    c_oflag := 0o5
    c_cflag := 0o277
    c_lflag := 0o105073
    c_cc := [3, 28, 127, 21, 4, 0, 1, 0, 17, 19, 26, 0, 18, 15, 23, 22, 0, 0, 0, 0, 0, 0, 0, 0,
      0, 0, 0, 0, 0, 0, 0, 0] }
  isatty := true
  inq := [65]
  atexit := 0
  errno := 0
  tcsets := []

/-! ### Sequences of calls and process exit -/

/-- A call of one of the two operations of the raw-mode controller, with the
success of the library calls it may reach. -/
inductive Call where
  | enable (getOk setOk : Bool)
  | disable (setOk : Bool)
  deriving DecidableEq, Repr

/-- The state after one call. -/
def Call.run (k : Consts) (w : World) : Call → World
  | .enable getOk setOk => (enable_raw_mode k getOk setOk w).2
  | .disable setOk => disable_raw_mode setOk w

/-- Whether the `tcsetattr` of a `disable_raw_mode` call is one that
succeeds. -/
def Call.restoreOk : Call → Bool
  | .enable _ _ => true
  | .disable setOk => setOk

/-- The state after a sequence of calls. -/
def runCalls (k : Consts) (w : World) (cs : List Call) : World :=
  cs.foldl (Call.run k) w

/-- The `n` most recent registrations of `disable_raw_mode` are called, the
most recent first; `ok j` tells whether the `tcsetattr` reached by
registration number `j` succeeds. -/
def run_hooks : Nat → (Nat → Bool) → World → World
  | 0, _, w => w
  | n + 1, ok, w => run_hooks n ok (disable_raw_mode (ok n) w)

/-- What `exit` does to the state, on every path that ends the process (return
from `main`, `exit(1)` in `read_key`, `exit(1)` in `lnext_keypress`): the
functions registered with `atexit` are called, once per registration. -/
def exit_hooks (ok : Nat → Bool) (w : World) : World :=
  run_hooks w.atexit ok w

/-- A session: raw mode is activated, left, and activated again; every
library call succeeds. -/
def sampleCalls : List Call := [.enable true true, .disable true, .enable true true]

/-! ## Geometry prober

`write`, `ioctl`, `sscanf` and `snprintf` are library calls, modelled after the
C standard and POSIX.  The return value of each `write` call and the answer of
`ioctl(1, TIOCGWINSZ, &ws)` are not decided by the program and are arguments.
Memory of `char buf[32]` is tracked cell by cell: a load from a cell that was
never stored to, or any access outside the array, is a fault.
-/

/-- What goes wrong with an access to a local array. -/
inductive Fault where
  | outOfBounds
  | uninitialised
  deriving DecidableEq, Repr

/-- A computation on a local array: its value, or the fault that stops it. -/
inductive Mem (α : Type) where
  | ok (a : α)
  | fault (f : Fault)
  deriving DecidableEq, Repr

/-- A local `char` array; a cell is `none` until it has been stored to. -/
abbrev Buf := List (Option Nat)

/-- Store to `buf[i]`. -/
def Buf.store (buf : Buf) (i b : Nat) : Mem Buf :=
  if i < buf.length then .ok (buf.set i (some b)) else .fault .outOfBounds

/-- Load from `buf[i]`. -/
def Buf.load (buf : Buf) (i : Nat) : Mem Nat :=
  match buf[i]? with
  | none => .fault .outOfBounds
  | some none => .fault .uninitialised
  | some (some b) => .ok b

/-- The C string that starts at `buf + i`: the bytes up to the first NUL.
`n` bounds the number of loads; with `n` above the array length the bound is
not reached before a load leaves the array. -/
def Buf.cstring : Nat → Buf → Nat → Mem (List Nat)
  | 0, _, _ => .fault .outOfBounds
  | n + 1, buf, i =>
    match buf.load i with
    | .fault f => .fault f
    | .ok b =>
      if b = 0 then .ok [] else
      match Buf.cstring n buf (i + 1) with
      | .fault f => .fault f
      | .ok t => .ok (b :: t)

/-- The file descriptors 0 and 1 of the process as the prober sees them. -/
structure Tio where
  /-- answers of the `read` calls to come on descriptor 0 -/
  input : List Rd
  /-- the buffers passed to `write` on descriptor 1 so far, oldest first -/
  writes : List (List Nat)
  deriving DecidableEq, Repr

/-- `isspace` in the C locale. -/
def isSpace (b : Nat) : Bool := b == 32 || (decide (9 ≤ b) && decide (b ≤ 13))

/-- `isdigit`. -/
def isDigit (b : Nat) : Bool := decide (48 ≤ b) && decide (b ≤ 57)

/-- Value of a run of decimal digits. -/
def digitsValue (ds : List Nat) : Nat := ds.foldl (fun a d => 10 * a + (d - 48)) 0

/-- The `%d` conversion of `sscanf`: white space is skipped, then an optional
sign and a non-empty run of decimal digits are read.  Gives the value and the
text left, or `none` when nothing matches.  The value is the mathematical
one: it is what the code stores only when it fits an `int` (C leaves the other
case undefined), and every statement that uses the value says that it fits. -/
def scanInt (s : List Nat) : Option (Int × List Nat) :=
  let s := s.dropWhile isSpace
  let neg := s.head? == some 45
  let s := if s.head? == some 45 || s.head? == some 43 then s.tail else s
  let ds := s.takeWhile isDigit
  if ds = [] then none
  else some (if neg then -(digitsValue ds : Int) else (digitsValue ds : Int), s.dropWhile isDigit)

/-- What `sscanf(s, "%d;%d", rows, cols)` reports. -/
inductive Scanned where
  | eof
  | zero
  | one (a : Int)
  | two (a b : Int)
  deriving DecidableEq, Repr

/-- Return value of `sscanf`. -/
def Scanned.count : Scanned → Int
  | .eof => -1
  | .zero => 0
  | .one _ => 1
  | .two _ _ => 2

/-- `sscanf(s, "%d;%d", rows, cols)`. -/
def sscanf (s : List Nat) : Scanned :=
  match scanInt s with
  | none => if s.dropWhile isSpace = [] then .eof else .zero
  | some (a, s1) =>
    match s1 with
    | 59 :: s2 =>
      match scanInt s2 with
      | none => .one a
      | some (b, _) => .two a b
    | _ => .one a

/-- Decimal digits of `n`, most significant first, in front of `acc`; `f`
bounds the number of digits. -/
def decimalCore : Nat → Nat → List Nat → List Nat
  | 0, _, acc => acc
  | f + 1, n, acc =>
    if n < 10 then (48 + n) :: acc else decimalCore f (n / 10) ((48 + n % 10) :: acc)

/-- The number `n` written in decimal (ASCII). -/
def decimal (n : Nat) : List Nat := decimalCore (n + 1) n []

/-- What `%d` of `printf` writes for `z`. -/
def formatInt (z : Int) : List Nat :=
  if z < 0 then 45 :: decimal z.natAbs else decimal z.natAbs

/-- How `cursor_position` returns: 0 with `*rows` and `*cols` stored, or -1.
(What a failing call may have stored already is not kept: no caller looks at
it.) -/
inductive CpRet where
  | ok (rows cols : Int) (io : Tio)
  | failed (io : Tio)
  deriving DecidableEq, Repr

/-- The state of the two descriptors when `cursor_position` returns. -/
def CpRet.io : CpRet → Tio
  | .ok _ _ io => io
  | .failed io => io

/-- The `while (i < sizeof(buf)-1)` loop of `cursor_position`; the first
argument is `31 - i`, the number of turns the condition still allows.  Gives
`i`, the array and the input left when the loop is over. -/
def cp_loop : Nat → Nat → Buf → List Rd → Mem (Nat × Buf × List Rd)
  | 0, i, buf, s => .ok (i, buf, s)
  | n + 1, i, buf, s =>
    -- if (read(ifd, buf+i, 1) != 1) break;
    match read s with
    | (.byte b, s') =>
      match buf.store i b with
      | .fault f => .fault f
      | .ok buf =>
        -- if (buf[i] == 'R') break;
        match buf.load i with
        | .fault f => .fault f
        | .ok c => if c = 82 then .ok (i, buf, s') else cp_loop n (i + 1) buf s'
    | (_, s') => .ok (i, buf, s')

/-- `int cursor_position(int ifd, int ofd, int *rows, int *cols)`; `wr` is the
return value of its `write` call. -/
def cursor_position (wr : Int) (io : Tio) : Mem CpRet :=
  -- if (write(ofd, "\x1b[6n", 4) != 4) return -1;
  let io := { io with writes := io.writes ++ [[27, 91, 54, 110]] }
  if wr ≠ 4 then .ok (.failed io) else
  match cp_loop 31 0 (List.replicate 32 none) io.input with
  | .fault f => .fault f
  | .ok (i, buf, rest) =>
    let io := { io with input := rest }
    -- buf[i] = '\0';
    match buf.store i 0 with
    | .fault f => .fault f
    | .ok buf =>
      -- if (buf[0] != ESC || buf[1] != '[') return -1;
      match buf.load 0 with
      | .fault f => .fault f
      | .ok b0 =>
        if b0 ≠ 27 then .ok (.failed io) else
        match buf.load 1 with
        | .fault f => .fault f
        | .ok b1 =>
          if b1 ≠ 91 then .ok (.failed io) else
          -- if (sscanf(buf+2, "%d;%d", rows, cols) != 2) return -1;
          match buf.cstring 33 2 with
          | .fault f => .fault f
          | .ok text =>
            match sscanf text with
            | .two r c => .ok (.ok r c io)
            | _ => .ok (.failed io)

/-- The answer of `ioctl(1, TIOCGWINSZ, &ws)` when it succeeds (`unsigned
short` members). -/
structure Winsize where
  ws_row : Nat
  ws_col : Nat
  deriving DecidableEq, Repr

/-- `snprintf(seq, 32, "\x1b[%d;%dH", orig_row, orig_col)` followed by
`strlen(seq)`: at most 31 bytes are kept. -/
def restoreSeq (orig_row orig_col : Int) : List Nat :=
  ([27, 91] ++ formatInt orig_row ++ [59] ++ formatInt orig_col ++ [72]).take 31

/-- `int screen_size(int *rows, int *cols)`.  `ws` is the answer of `ioctl`
(`none`: it returned -1); `w1`, `w2`, `w3`, `w4` are the return values of the
`write` calls in the order in which they are made. -/
def screen_size (ws : Option Winsize) (w1 w2 w3 w4 : Int) (io : Tio) : Mem CpRet :=
  let fallback : Bool :=
    match ws with
    | none => true
    | some z => z.ws_col == 0
  if fallback then
    -- retval = cursor_position(ifd, ofd, &orig_row, &orig_col);
    match cursor_position w1 io with
    | .fault f => .fault f
    | .ok (.failed io) => .ok (.failed io)
    | .ok (.ok orig_row orig_col io) =>
      -- if (write(ofd, "\x1b[999C\x1b[999B", 12) != 12) goto failed;
      let io := { io with writes := io.writes ++ [[27, 91, 57, 57, 57, 67, 27, 91, 57, 57, 57, 66]] }
      if w2 ≠ 12 then .ok (.failed io) else
      -- retval = cursor_position(ifd, ofd, rows, cols);
      match cursor_position w3 io with
      | .fault f => .fault f
      | .ok (.failed io) => .ok (.failed io)
      | .ok (.ok rows cols io) =>
        -- if (write(ofd, seq, strlen(seq)) == -1) { /* Can't recover... */ }
        let io := { io with writes := io.writes ++ [restoreSeq orig_row orig_col] }
        if w4 = -1 then .ok (.ok rows cols io) else .ok (.ok rows cols io)
  else
    match ws with
    | none => .ok (.failed io)
    | some z => .ok (.ok z.ws_row z.ws_col io)

/-- What `lscreen_size` leaves to Lua: two numbers, or an error raised with a
message. -/
inductive LuaSize where
  | values (w h : Int) (io : Tio)
  | error (msg : List Nat) (io : Tio)
  deriving DecidableEq, Repr

/-- `static int lscreen_size(lua_State *L)`, which calls
`screen_size(&h, &w)` and pushes `w`, then `h`. -/
def lscreen_size (ws : Option Winsize) (w1 w2 w3 w4 : Int) (io : Tio) : Mem LuaSize :=
  match screen_size ws w1 w2 w3 w4 io with
  | .fault f => .fault f
  | .ok (.failed io) => .ok (.error (lit "screen_size: failed to fetch screen size") io)
  | .ok (.ok h w io) => .ok (.values w h io)

/-- The reply `ESC [ r ; c R` of a terminal to a cursor-position request, as
answers of `read`. -/
def cursorReport (r c : Nat) : List Rd :=
  ([27, 91] ++ decimal r ++ [59] ++ decimal c ++ [82]).map Rd.byte

/-! ### The reading loop of `cursor_position`, seen from the input

These two functions describe, on the input alone, what the loop keeps and what
it leaves; `cp_loop_eq` proves that the loop computes them.
-/

/-- The bytes the loop of `cursor_position` keeps when it may read `n` times:
those in front of the first `R`, unanswered read or failed read. -/
def received : Nat → List Rd → List Nat
  | 0, _ => []
  | _ + 1, [] => []
  | n + 1, .byte b :: s => if b = 82 then [] else b :: received n s
  | _ + 1, .timeout :: _ => []
  | _ + 1, .fail :: _ => []

/-- The input the loop of `cursor_position` leaves when it may read `n`
times. -/
def unread : Nat → List Rd → List Rd
  | 0, s => s
  | _ + 1, [] => []
  | n + 1, .byte b :: s => if b = 82 then s else unread n s
  | _ + 1, .timeout :: s => s
  | _ + 1, .fail :: s => s

/-- The result of `cursor_position` in terms of `received` and `unread`
(`cursor_position_eq`). -/
def cursorPositionOf (wr : Int) (io : Tio) : CpRet :=
  let out := io.writes ++ [[27, 91, 54, 110]]
  if wr ≠ 4 then .failed ⟨io.input, out⟩ else
  match received 31 io.input with
  | a :: b :: t =>
    if a = 27 ∧ b = 91 then
      match sscanf (t.takeWhile (fun x => decide (x ≠ 0))) with
      | .two r c => .ok r c ⟨unread 31 io.input, out⟩
      | _ => .failed ⟨unread 31 io.input, out⟩
    else .failed ⟨unread 31 io.input, out⟩
  | _ => .failed ⟨unread 31 io.input, out⟩

end Ry

namespace Ry

/-! ## Key decoder: supporting lemmas -/

theorem read_length_le (s : List Rd) : (read s).2.length ≤ s.length := by
  cases s <;> simp [read]

theorem read_length_lt (s : List Rd) (h : (read s).1.nread ≠ 0) :
    (read s).2.length < s.length := by
  cases s with
  | nil => simp [read, Rd.nread] at h
  | cons r t => simp [read]

/-- A turn that ends in `break` has read at least two answers. -/
theorem esc_case_again_lt {q q' : Seq} {s s' : List Rd}
    (h : esc_case q s = Turn.again q' s') : s'.length + 2 ≤ s.length := by
  unfold esc_case at h
  by_cases h0 : (read s).1.nread = 0
  · simp [h0] at h
  by_cases h1 : (read (read s).2).1.nread = 0
  · simp [h0, h1] at h
  have l0 := read_length_lt s h0
  have l1 := read_length_lt _ h1
  have l2 := read_length_le (read (read s).2).2
  simp only [h0, h1, if_false] at h
  split_ifs at h <;> simp only [Turn.again.injEq, reduceCtorEq] at h <;>
    (obtain ⟨-, rfl⟩ := h; omega)

/-- The loop bound of `read_key_esc` is never reached: any larger bound gives
the same outcome. -/
theorem esc_loop_enough (n m : Nat) (q : Seq) (s : List Rd)
    (hn : s.length < n) (hm : s.length < m) : esc_loop n q s = esc_loop m q s := by
  induction n generalizing m q s with
  | zero => omega
  | succ n ih =>
    cases m with
    | zero => omega
    | succ m =>
      simp only [esc_loop]
      cases h : esc_case q s with
      | ret key rest => rfl
      | again q' rest =>
        have := esc_case_again_lt h
        exact ih m q' rest (by omega) (by omega)

/-- One turn of the loop of `read_key`, unfolded. -/
theorem read_key_esc_eq (q : Seq) (s : List Rd) :
    read_key_esc q s =
      match esc_case q s with
      | .ret key rest => .ret key rest
      | .again q' rest => read_key_esc q' rest := by
  unfold read_key_esc
  simp only [esc_loop]
  cases h : esc_case q s with
  | ret key rest => rfl
  | again q' rest =>
    have := esc_case_again_lt h
    exact esc_loop_enough s.length (rest.length + 1) q' rest (by omega) (by omega)

theorem read_key_esc_of_ret {q : Seq} {s rest : List Rd} {key : Int}
    (h : esc_case q s = Turn.ret key rest) : read_key_esc q s = Outcome.ret key rest := by
  rw [read_key_esc_eq, h]

theorem read_key_esc_of_again {q q' : Seq} {s rest : List Rd}
    (h : esc_case q s = Turn.again q' rest) : read_key_esc q s = read_key_esc q' rest := by
  rw [read_key_esc_eq, h]

theorem read_key_skip_timeouts (sgn : Bool) (q : Seq) (n : Nat) (s : List Rd) :
    read_key sgn q (List.replicate n Rd.timeout ++ s) = read_key sgn q s := by
  induction n with
  | zero => rfl
  | succ k ih => simpa [List.replicate_succ, read_key] using ih

theorem lnext_keypress_skip_timeouts (sgn : Bool) (q : Seq) (n : Nat) (s : List Rd) :
    lnext_keypress sgn q (List.replicate n Rd.timeout ++ s) = lnext_keypress sgn q s := by
  unfold lnext_keypress
  rw [read_key_skip_timeouts]

theorem read_key_plain_byte (sgn : Bool) (q : Seq) (b : Nat) (s : List Rd)
    (hb : charToInt sgn b ≠ ESC) :
    read_key sgn q (Rd.byte b :: s) = Outcome.ret (charToInt sgn b) s := by
  simp [read_key, read_key_switch, hb]

theorem charToInt_small (sgn : Bool) (b : Nat) (hb : b < 128) : charToInt sgn b = (b : Int) := by
  have : ¬ 128 ≤ b := by omega
  simp [charToInt, this]

theorem intToChar_charToInt (sgn : Bool) (b : Nat) (hb : b < 256) :
    intToChar (charToInt sgn b) = b := by
  unfold intToChar charToInt
  split <;> omega

/-! ## Key decoder: claims -/

/-- C1: every recognised escape sequence at the head of the input makes
`read_key` return the mapped key code and leaves exactly the bytes after the
sequence unread, whatever they are. -/
theorem read_key_recognised_sequences (sgn : Bool) (q : Seq) (rest : List Rd) :
    read_key sgn q (.byte 27 :: .byte 91 :: .byte 65 :: rest) = .ret ARROW_UP rest ∧
    read_key sgn q (.byte 27 :: .byte 91 :: .byte 66 :: rest) = .ret ARROW_DOWN rest ∧
    read_key sgn q (.byte 27 :: .byte 91 :: .byte 67 :: rest) = .ret ARROW_RIGHT rest ∧
    read_key sgn q (.byte 27 :: .byte 91 :: .byte 68 :: rest) = .ret ARROW_LEFT rest ∧
    read_key sgn q (.byte 27 :: .byte 91 :: .byte 72 :: rest) = .ret HOME_KEY rest ∧
    read_key sgn q (.byte 27 :: .byte 91 :: .byte 70 :: rest) = .ret END_KEY rest ∧
    read_key sgn q (.byte 27 :: .byte 79 :: .byte 72 :: rest) = .ret HOME_KEY rest ∧
    read_key sgn q (.byte 27 :: .byte 79 :: .byte 70 :: rest) = .ret END_KEY rest ∧
    read_key sgn q (.byte 27 :: .byte 91 :: .byte 51 :: .byte 126 :: rest)
      = .ret DEL_KEY rest ∧
    read_key sgn q (.byte 27 :: .byte 91 :: .byte 53 :: .byte 126 :: rest)
      = .ret PAGE_UP rest ∧
    read_key sgn q (.byte 27 :: .byte 91 :: .byte 54 :: .byte 126 :: rest)
      = .ret PAGE_DOWN rest := by
  refine ⟨?_, ?_, ?_, ?_, ?_, ?_, ?_, ?_, ?_, ?_, ?_⟩ <;>
    simp [read_key, read_key_switch, read_key_esc_eq, esc_case, read, charToInt, Rd.nread,
      Seq.rd0, Seq.rd1, Seq.rd2, ESC]

/-- C2: for each control byte of the table, arriving after any number of read
timeouts, `read_key` returns its key code and leaves exactly what follows the
byte, and `lnext_keypress` returns its event name. -/
theorem control_byte_named (sgn : Bool) (q : Seq) (n : Nat) (rest : List Rd) :
    ∀ p ∈ controlTable,
      read_key sgn q (List.replicate n Rd.timeout ++ Rd.byte p.1 :: rest)
        = Outcome.ret p.2.1 rest ∧
      lnext_keypress sgn q (List.replicate n Rd.timeout ++ Rd.byte p.1 :: rest)
        = Outcome.ret (lit p.2.2) rest := by
  intro p hp
  rw [lnext_keypress_skip_timeouts]
  unfold lnext_keypress
  rw [read_key_skip_timeouts]
  simp only [controlTable, List.mem_cons, List.mem_singleton, List.not_mem_nil, or_false] at hp
  rcases hp with rfl | rfl | rfl | rfl | rfl | rfl | rfl | rfl | rfl <;>
    rw [read_key_plain_byte _ _ _ _ (by rw [charToInt_small _ _ (by decide)]; decide)] <;>
    rw [charToInt_small _ _ (by decide)] <;>
    exact ⟨rfl, rfl⟩

theorem control_byte_named_witness :
    read_key true ⟨0, 0, 0⟩ (List.replicate 2 Rd.timeout ++ Rd.byte 13 :: [Rd.byte 65])
        = Outcome.ret ENTER [Rd.byte 65] ∧
      lnext_keypress true ⟨0, 0, 0⟩ (List.replicate 2 Rd.timeout ++ Rd.byte 13 :: [Rd.byte 65])
        = Outcome.ret (lit "enter") [Rd.byte 65] :=
  control_byte_named true ⟨0, 0, 0⟩ 2 [Rd.byte 65] (13, ENTER, "enter") (by decide)

/-- A byte that is neither NUL, ESC nor in the control-code table comes back
from `lnext_keypress` as the one-byte string holding it. -/
theorem lnext_keypress_plain_byte (sgn : Bool) (q : Seq) (b : Nat) (rest : List Rd)
    (hb : b < 256) (h0 : b ≠ 0)
    (ht : b ∉ [3, 4, 6, 8, 9, 13, 17, 19, 21, 27, 127]) :
    read_key sgn q (Rd.byte b :: rest) = Outcome.ret (charToInt sgn b) rest ∧
    lnext_keypress sgn q (Rd.byte b :: rest) = Outcome.ret [b] rest := by
  simp only [List.mem_cons, List.mem_singleton, List.not_mem_nil, or_false, not_or] at ht
  have hc : charToInt sgn b = (b : Int) ∨ charToInt sgn b = (b : Int) - 256 ∧ 128 ≤ b := by
    unfold charToInt
    split
    · rename_i h
      simp only [Bool.and_eq_true, decide_eq_true_eq] at h
      exact Or.inr ⟨rfl, h.2⟩
    · exact Or.inl rfl
  have hk : keyName (charToInt sgn b) = some [b] := by
    have hi := intToChar_charToInt sgn b hb
    unfold keyName charString
    rw [hi]
    simp only [ESC, DEL_KEY, ENTER, BACKSPACE, TAB, PAGE_UP, PAGE_DOWN, ARROW_UP, ARROW_DOWN,
      ARROW_LEFT, ARROW_RIGHT, CTRL_C, CTRL_D, CTRL_F, CTRL_H, CTRL_Q, CTRL_S, CTRL_U]
    rcases hc with hc | ⟨hc, h128⟩ <;> rw [hc] <;>
      (repeat rw [if_neg (by omega)])
  have he : charToInt sgn b ≠ ESC := by
    unfold ESC
    rcases hc with hc | ⟨hc, h128⟩ <;> rw [hc] <;> omega
  refine ⟨read_key_plain_byte sgn q b rest he, ?_⟩
  unfold lnext_keypress
  rw [read_key_plain_byte sgn q b rest he]
  simp only [hk]

/-- C3 (failing input): the NUL byte is outside the control-code table and is
not ESC; `read_key` returns it as key code 0, and `lnext_keypress` pushes the
empty string, of length 0, not a one-character string. -/
theorem lnext_keypress_nul_is_empty (sgn : Bool) (q : Seq) (rest : List Rd) :
    read_key sgn q (Rd.byte 0 :: rest) = Outcome.ret 0 rest ∧
    lnext_keypress sgn q (Rd.byte 0 :: rest) = Outcome.ret [] rest ∧
    ([] : List Nat).length = 0 := by
  have h : read_key sgn q (Rd.byte 0 :: rest) = Outcome.ret 0 rest := by
    rw [read_key_plain_byte _ _ _ _ (by rw [charToInt_small _ _ (by decide)]; decide)]
    rw [charToInt_small _ _ (by decide)]
    rfl
  refine ⟨h, ?_, rfl⟩
  unfold lnext_keypress
  rw [h]
  rfl

/-- C4: an incomplete escape sequence degrades to Escape.  After ESC, a
timeout at the first, the second or (after `[` and a digit) the third follow-up
read makes `read_key` return ESC; the bytes read before the timeout are
consumed, together with the timeout itself.  The same holds when the input
simply ends there. -/
theorem read_key_incomplete_escape (sgn : Bool) (q : Seq) (x d : Nat) (rest : List Rd)
    (hd : 48 ≤ d ∧ d ≤ 57) :
    read_key sgn q (.byte 27 :: .timeout :: rest) = .ret ESC rest ∧
    read_key sgn q (.byte 27 :: .byte x :: .timeout :: rest) = .ret ESC rest ∧
    read_key sgn q (.byte 27 :: .byte 91 :: .byte d :: .timeout :: rest) = .ret ESC rest ∧
    read_key sgn q [.byte 27] = .ret ESC [] ∧
    read_key sgn q [.byte 27, .byte x] = .ret ESC [] ∧
    read_key sgn q [.byte 27, .byte 91, .byte d] = .ret ESC [] := by
  refine ⟨?_, ?_, ?_, ?_, ?_, ?_⟩ <;>
    simp [read_key, read_key_switch, read_key_esc_eq, esc_case, read, charToInt, Rd.nread,
      Seq.rd0, Seq.rd1, Seq.rd2, ESC, hd]

theorem read_key_incomplete_escape_witness :
    read_key true ⟨0, 0, 0⟩ (.byte 27 :: .timeout :: [.byte 97]) = .ret ESC [.byte 97] ∧
    read_key true ⟨0, 0, 0⟩ (.byte 27 :: .byte 91 :: .timeout :: [.byte 97])
      = .ret ESC [.byte 97] ∧
    read_key true ⟨0, 0, 0⟩ (.byte 27 :: .byte 91 :: .byte 53 :: .timeout :: [.byte 97])
      = .ret ESC [.byte 97] ∧
    read_key true ⟨0, 0, 0⟩ [.byte 27] = .ret ESC [] ∧
    read_key true ⟨0, 0, 0⟩ [.byte 27, .byte 91] = .ret ESC [] ∧
    read_key true ⟨0, 0, 0⟩ [.byte 27, .byte 91, .byte 53] = .ret ESC [] :=
  read_key_incomplete_escape true ⟨0, 0, 0⟩ 91 53 [.byte 97] (by decide)

/-- After an unrecognised sequence ESC x y (x neither `[` nor `O`) the loop of
`read_key` takes its next turn with `c` still holding ESC: what follows is
decoded as the body of another escape sequence. -/
theorem read_key_unrecognised_reenters_escape (sgn : Bool) (q : Seq) (x y : Nat)
    (s : List Rd) (hx : x ≠ 91 ∧ x ≠ 79) :
    read_key sgn q (.byte 27 :: .byte x :: .byte y :: s) = read_key_esc ⟨x, y, q.s2⟩ s ∧
    read_key sgn q (.byte 27 :: s) = read_key_esc q s := by
  constructor
  · have h : esc_case q (.byte x :: .byte y :: s) = Turn.again ⟨x, y, q.s2⟩ s := by
      simp [esc_case, read, Rd.nread, Seq.rd0, Seq.rd1, hx]
    simp [read_key, read_key_switch, charToInt, ESC, read_key_esc_of_again h]
  · simp [read_key, read_key_switch, charToInt, ESC]

/-- C5 (failing input): on ESC `x` `y` `q` followed by a timeout, `read_key`
returns ESC and consumes `q` and the timeout, whereas on `q` followed by a
timeout alone it returns the key code of `q` and leaves the timeout. -/
theorem read_key_unrecognised_swallows_next (sgn : Bool) (q : Seq) :
    read_key sgn q [.byte 27, .byte 120, .byte 121, .byte 113, .timeout] = .ret ESC [] ∧
    read_key sgn q [.byte 113, .timeout] = .ret 113 [.timeout] := by
  constructor <;>
    simp [read_key, read_key_switch, read_key_esc_eq, esc_case, read, charToInt, Rd.nread,
      Seq.rd0, Seq.rd1, Seq.rd2, ESC]

/-- C6: when the first byte available (after any number of read timeouts) is
3, `lnext_keypress` ends in `exit(1)`: no event name is returned, and the
input after that byte is left unread. -/
theorem lnext_keypress_ctrl_c_exits (sgn : Bool) (q : Seq) (n : Nat) (rest : List Rd) :
    lnext_keypress sgn q (List.replicate n Rd.timeout ++ Rd.byte 3 :: rest)
      = Outcome.exit 1 rest := by
  rw [lnext_keypress_skip_timeouts]
  unfold lnext_keypress
  rw [read_key_plain_byte _ _ _ _ (by rw [charToInt_small _ _ (by decide)]; decide)]
  rw [charToInt_small _ _ (by decide)]
  rfl

/-! ## Raw-mode controller: supporting lemmas -/

theorem testBit_clear32 (x m i : Nat) (hi : i < 32) :
    (clear32 x m).testBit i = (x.testBit i && !m.testBit i) := by
  unfold clear32
  rw [Nat.testBit_and, Nat.testBit_xor, Nat.testBit_two_pow_sub_one, Nat.testBit_mod_two_pow]
  simp [hi]

theorem testBit_set32 (x m i : Nat) (hi : i < 32) :
    (set32 x m).testBit i = (x.testBit i || m.testBit i) := by
  unfold set32
  rw [Nat.testBit_mod_two_pow, Nat.testBit_or]
  simp [hi]

/-- What a successful `enable_raw_mode` from the inactive state does. -/
theorem enable_raw_mode_success (k : Consts) (getOk setOk : Bool) (w : World)
    (h0 : w.rawmode = 0) (hs : (enable_raw_mode k getOk setOk w).1 = 0) :
    (enable_raw_mode k getOk setOk w).2 =
      { w with
        rawmode := 1
        orig_termios := w.tty
        tty := {
          c_iflag := clear32 w.tty.c_iflag
            (k.BRKINT ||| k.ICRNL ||| k.INPCK ||| k.ISTRIP ||| k.IXON)
          c_oflag := clear32 w.tty.c_oflag k.OPOST
          c_cflag := set32 w.tty.c_cflag k.CS8
          c_lflag := clear32 w.tty.c_lflag (k.ECHO ||| k.ICANON ||| k.IEXTEN ||| k.ISIG)
          c_cc := (w.tty.c_cc.set k.VMIN 0).set k.VTIME 1 }
        inq := []
        atexit := w.atexit + 1
        tcsets := w.tcsets ++ [{
          c_iflag := clear32 w.tty.c_iflag
            (k.BRKINT ||| k.ICRNL ||| k.INPCK ||| k.ISTRIP ||| k.IXON)
          c_oflag := clear32 w.tty.c_oflag k.OPOST
          c_cflag := set32 w.tty.c_cflag k.CS8
          c_lflag := clear32 w.tty.c_lflag (k.ECHO ||| k.ICANON ||| k.IEXTEN ||| k.ISIG)
          c_cc := (w.tty.c_cc.set k.VMIN 0).set k.VTIME 1 }] } := by
  unfold enable_raw_mode at hs ⊢
  cases hi : w.isatty <;> cases getOk <;> cases setOk <;>
    simp_all [enable_fatal, tcsetattr]

/-! ## Raw-mode controller: claims -/

/-- C7 (counterexample): when the restoring `tcsetattr` of `disable_raw_mode`
fails, a successful activation followed by deactivation leaves the terminal
with the raw attributes, not with the ones it had. -/
theorem round_trip_fails_when_restore_fails :
    cookedWorld.rawmode = 0 ∧ cookedWorld.isatty = true ∧
    (enable_raw_mode linux true true cookedWorld).1 = 0 ∧
    (disable_raw_mode false (enable_raw_mode linux true true cookedWorld).2).rawmode = 0 ∧
    (disable_raw_mode false (enable_raw_mode linux true true cookedWorld).2).tty
      ≠ cookedWorld.tty := by
  decide

/-- C7 (amended): from the inactive state, a successful `enable_raw_mode`
followed by a `disable_raw_mode` whose `tcsetattr` succeeds leaves the terminal
attributes equal, in every field, to those before the activation; the state is
inactive afterwards whether or not that `tcsetattr` succeeds. -/
theorem round_trip_restores_attributes (k : Consts) (getOk setOk : Bool) (w : World)
    (h0 : w.rawmode = 0) (hs : (enable_raw_mode k getOk setOk w).1 = 0) :
    (disable_raw_mode true (enable_raw_mode k getOk setOk w).2).tty = w.tty ∧
    ∀ ok, (disable_raw_mode ok (enable_raw_mode k getOk setOk w).2).rawmode = 0 := by
  rw [enable_raw_mode_success k getOk setOk w h0 hs]
  refine ⟨?_, fun ok => ?_⟩
  · simp [disable_raw_mode, tcsetattr]
  · simp [disable_raw_mode]

theorem round_trip_restores_attributes_witness :
    (disable_raw_mode true (enable_raw_mode linux true true cookedWorld).2).tty
      = cookedWorld.tty ∧
    ∀ ok, (disable_raw_mode ok (enable_raw_mode linux true true cookedWorld).2).rawmode = 0 :=
  round_trip_restores_attributes linux true true cookedWorld (by decide) (by decide)

/-- C8: `disable_raw_mode` is idempotent.  Whatever the state and whether or
not the `tcsetattr` calls succeed, a second call changes nothing (flag,
snapshot, terminal attributes, and no further `tcsetattr` call); and a call in
the inactive state changes nothing and calls `tcsetattr` not at all. -/
theorem disable_raw_mode_idempotent (ok1 ok2 : Bool) (w : World) :
    disable_raw_mode ok2 (disable_raw_mode ok1 w) = disable_raw_mode ok1 w ∧
    (disable_raw_mode ok2 (disable_raw_mode ok1 w)).rawmode = 0 ∧
    (w.rawmode = 0 → disable_raw_mode ok1 w = w ∧ (disable_raw_mode ok1 w).tcsets = w.tcsets) := by
  have h1 : (disable_raw_mode ok1 w).rawmode = 0 := by
    unfold disable_raw_mode
    split
    · rfl
    · rename_i h
      simpa using h
  have h2 : ∀ (ok : Bool) (v : World), v.rawmode = 0 → disable_raw_mode ok v = v := by
    intro ok v hv
    simp [disable_raw_mode, hv]
  refine ⟨h2 ok2 _ h1, ?_, fun h => ?_⟩
  · rw [h2 ok2 _ h1]
    exact h1
  · rw [h2 ok1 w h]
    exact ⟨rfl, rfl⟩

theorem disable_raw_mode_idempotent_witness :
    disable_raw_mode false (disable_raw_mode true cookedWorld)
      = disable_raw_mode true cookedWorld ∧
    (disable_raw_mode false (disable_raw_mode true cookedWorld)).rawmode = 0 ∧
    (cookedWorld.rawmode = 0 → disable_raw_mode true cookedWorld = cookedWorld ∧
      (disable_raw_mode true cookedWorld).tcsets = cookedWorld.tcsets) :=
  disable_raw_mode_idempotent true false cookedWorld

/-- C9: on a successful `enable_raw_mode` from the inactive state the
attributes committed to the terminal are the captured snapshot with, bit by
bit, BRKINT, ICRNL, INPCK, ISTRIP, IXON cleared in the input flags, OPOST
cleared in the output flags, CS8 set in the control flags, ECHO, ICANON,
IEXTEN, ISIG cleared in the local flags, `c_cc[VMIN]` equal to 0 and
`c_cc[VTIME]` equal to 1; every other flag bit and control character is that of
the snapshot.  VMIN and VTIME are distinct indices into `c_cc`. -/
theorem enable_raw_mode_attribute_changes (k : Consts) (getOk setOk : Bool) (w : World)
    (h0 : w.rawmode = 0) (hs : (enable_raw_mode k getOk setOk w).1 = 0)
    (hv : k.VMIN ≠ k.VTIME) (hmin : k.VMIN < w.tty.c_cc.length)
    (htime : k.VTIME < w.tty.c_cc.length) :
    let w' := (enable_raw_mode k getOk setOk w).2
    w'.orig_termios = w.tty ∧
    w'.tcsets = w.tcsets ++ [w'.tty] ∧
    (∀ i, i < 32 → w'.tty.c_iflag.testBit i =
      (w'.orig_termios.c_iflag.testBit i &&
        !(k.BRKINT.testBit i || k.ICRNL.testBit i || k.INPCK.testBit i ||
          k.ISTRIP.testBit i || k.IXON.testBit i))) ∧
    (∀ i, i < 32 → w'.tty.c_oflag.testBit i =
      (w'.orig_termios.c_oflag.testBit i && !k.OPOST.testBit i)) ∧
    (∀ i, i < 32 → w'.tty.c_cflag.testBit i =
      (w'.orig_termios.c_cflag.testBit i || k.CS8.testBit i)) ∧
    (∀ i, i < 32 → w'.tty.c_lflag.testBit i =
      (w'.orig_termios.c_lflag.testBit i &&
        !(k.ECHO.testBit i || k.ICANON.testBit i || k.IEXTEN.testBit i ||
          k.ISIG.testBit i))) ∧
    w'.tty.c_cc.length = w'.orig_termios.c_cc.length ∧
    w'.tty.c_cc[k.VMIN]? = some 0 ∧
    w'.tty.c_cc[k.VTIME]? = some 1 ∧
    (∀ j, j ≠ k.VMIN → j ≠ k.VTIME → w'.tty.c_cc[j]? = w'.orig_termios.c_cc[j]?) := by
  intro w'
  have hw : w' = _ := enable_raw_mode_success k getOk setOk w h0 hs
  rw [hw]
  refine ⟨rfl, rfl, ?_, ?_, ?_, ?_, ?_, ?_, ?_, ?_⟩
  · intro i hi
    simp only [testBit_clear32 _ _ _ hi, Nat.testBit_or]
  · intro i hi
    simp only [testBit_clear32 _ _ _ hi]
  · intro i hi
    simp only [testBit_set32 _ _ _ hi]
  · intro i hi
    simp only [testBit_clear32 _ _ _ hi, Nat.testBit_or]
  · simp
  · simp [List.getElem?_set, hv, hmin, Ne.symm hv]
  · simp [List.getElem?_set, htime]
  · intro j hj1 hj2
    simp [List.getElem?_set, Ne.symm hj1, Ne.symm hj2]

theorem enable_raw_mode_attribute_changes_witness :
    let w' := (enable_raw_mode linux true true cookedWorld).2
    w'.orig_termios = cookedWorld.tty ∧
    w'.tcsets = cookedWorld.tcsets ++ [w'.tty] ∧
    (∀ i, i < 32 → w'.tty.c_iflag.testBit i =
      (w'.orig_termios.c_iflag.testBit i &&
        !(linux.BRKINT.testBit i || linux.ICRNL.testBit i || linux.INPCK.testBit i ||
          linux.ISTRIP.testBit i || linux.IXON.testBit i))) ∧
    (∀ i, i < 32 → w'.tty.c_oflag.testBit i =
      (w'.orig_termios.c_oflag.testBit i && !linux.OPOST.testBit i)) ∧
    (∀ i, i < 32 → w'.tty.c_cflag.testBit i =
      (w'.orig_termios.c_cflag.testBit i || linux.CS8.testBit i)) ∧
    (∀ i, i < 32 → w'.tty.c_lflag.testBit i =
      (w'.orig_termios.c_lflag.testBit i &&
        !(linux.ECHO.testBit i || linux.ICANON.testBit i || linux.IEXTEN.testBit i ||
          linux.ISIG.testBit i))) ∧
    w'.tty.c_cc.length = w'.orig_termios.c_cc.length ∧
    w'.tty.c_cc[linux.VMIN]? = some 0 ∧
    w'.tty.c_cc[linux.VTIME]? = some 1 ∧
    (∀ j, j ≠ linux.VMIN → j ≠ linux.VTIME → w'.tty.c_cc[j]? = w'.orig_termios.c_cc[j]?) :=
  enable_raw_mode_attribute_changes linux true true cookedWorld (by decide) (by decide)
    (by decide) (by decide) (by decide)

/-- C10 (counterexample): a byte typed ahead is pending when `enable_raw_mode`
is called; the call succeeds and the byte is gone from the input queue. -/
theorem enable_raw_mode_drops_typeahead :
    cookedWorld.rawmode = 0 ∧ cookedWorld.inq = [65] ∧
    (enable_raw_mode linux true true cookedWorld).1 = 0 ∧
    (enable_raw_mode linux true true cookedWorld).2.inq = [] := by
  decide

/-- C10 (amended): a successful `enable_raw_mode` from the inactive state
commits with `TCSAFLUSH`, so the input received but not read is discarded and
the input queue is empty afterwards; a call in the active state commits nothing
and leaves the queue as it was. -/
theorem enable_raw_mode_flushes_input (k : Consts) (getOk setOk : Bool) (w : World)
    (h0 : w.rawmode = 0) (hs : (enable_raw_mode k getOk setOk w).1 = 0) :
    (enable_raw_mode k getOk setOk w).2.inq = [] ∧
    ∀ v : World, v.rawmode ≠ 0 → (enable_raw_mode k getOk setOk v).2.inq = v.inq := by
  constructor
  · rw [enable_raw_mode_success k getOk setOk w h0 hs]
  · intro v hv
    simp [enable_raw_mode, hv]

theorem enable_raw_mode_flushes_input_witness :
    (enable_raw_mode linux true true cookedWorld).2.inq = [] ∧
    ∀ v : World, v.rawmode ≠ 0 → (enable_raw_mode linux true true v).2.inq = v.inq :=
  enable_raw_mode_flushes_input linux true true cookedWorld (by decide) (by decide)

/-! ## Geometry prober: supporting lemmas -/

theorem received_length_le (n : Nat) (s : List Rd) : (received n s).length ≤ n := by
  induction n generalizing s with
  | zero => simp [received]
  | succ n ih =>
    rcases s with _ | ⟨r, s⟩
    · simp [received]
    · cases r with
      | byte b =>
        by_cases hb : b = 82
        · simp [received, hb]
        · have := ih s
          simp [received, hb]
          omega
      | timeout => simp [received]
      | fail => simp [received]

theorem unread_length_le (n : Nat) (s : List Rd) :
    (unread n s).length + (received n s).length ≤ s.length := by
  induction n generalizing s with
  | zero => simp [received, unread]
  | succ n ih =>
    rcases s with _ | ⟨r, s⟩
    · simp [received, unread]
    · cases r with
      | byte b =>
        by_cases hb : b = 82
        · simp [received, unread, hb]
        · have := ih s
          simp [received, unread, hb]
          omega
      | timeout => simp [received, unread]
      | fail => simp [received, unread]

theorem unread_suffix (n : Nat) (s : List Rd) : unread n s <:+ s := by
  induction n generalizing s with
  | zero => exact List.suffix_refl s
  | succ n ih =>
    rcases s with _ | ⟨r, s⟩
    · exact List.suffix_refl _
    · cases r with
      | byte b =>
        by_cases hb : b = 82
        · simp only [unread, hb, if_true]
          exact List.suffix_cons _ _
        · simp only [unread, hb, if_false]
          exact (ih s).trans (List.suffix_cons _ _)
      | timeout => exact List.suffix_cons _ _
      | fail => exact List.suffix_cons _ _

theorem store_append (pre : List Nat) (j : Option Nat) (jt : Buf) (b : Nat) :
    Buf.store (pre.map some ++ j :: jt) pre.length b = Mem.ok (pre.map some ++ some b :: jt) := by
  unfold Buf.store
  have h : pre.length < (pre.map some ++ j :: jt).length := by simp
  rw [if_pos h, List.set_append_right _ _ (by simp)]
  simp

theorem load_append (pre : List Nat) (b : Nat) (jt : Buf) :
    Buf.load (pre.map some ++ some b :: jt) pre.length = Mem.ok b := by
  unfold Buf.load
  rw [List.getElem?_append_right (by simp)]
  simp

/-- The loop of `cursor_position` stores the bytes `received` behind what the
array already holds, leaves the input `unread`, and never faults as long as
the array has a cell more than the number of reads allowed. -/
theorem cp_loop_eq (n : Nat) (pre : List Nat) (junk : Buf) (s : List Rd)
    (hj : junk.length = n + 1) :
    ∃ junk' : Buf, junk'.length = n + 1 - (received n s).length ∧
      cp_loop n pre.length (pre.map some ++ junk) s =
        Mem.ok (pre.length + (received n s).length,
          (pre ++ received n s).map some ++ junk', unread n s) := by
  induction n generalizing pre junk s with
  | zero => exact ⟨junk, by simp [received, hj], by simp [cp_loop, received, unread]⟩
  | succ n ih =>
    rcases junk with _ | ⟨j, jt⟩
    · simp at hj
    have hjt : jt.length = n + 1 := by simpa using hj
    rcases s with _ | ⟨r, s⟩
    · exact ⟨j :: jt, by simp [received, hjt], by simp [cp_loop, read, received, unread]⟩
    · cases r with
      | byte b =>
        by_cases hb : b = 82
        · refine ⟨some b :: jt, by simp [received, hb, hjt], ?_⟩
          simp [cp_loop, read, received, unread, hb, store_append, load_append]
        · obtain ⟨junk', hl, he⟩ := ih (pre ++ [b]) jt s hjt
          refine ⟨junk', by simp [received, hb]; omega, ?_⟩
          simp only [List.length_append, List.length_singleton, List.map_append, List.map_cons,
            List.map_nil, List.append_assoc, List.singleton_append] at he
          simp only [cp_loop, read, store_append, load_append, hb, if_false, he, received,
            unread]
          simp [Nat.add_assoc, Nat.add_comm 1]
      | timeout =>
        exact ⟨j :: jt, by simp [received, hjt], by simp [cp_loop, read, received, unread]⟩
      | fail =>
        exact ⟨j :: jt, by simp [received, hjt], by simp [cp_loop, read, received, unread]⟩

theorem cstring_append (t pre : List Nat) (jt : Buf) (fuel : Nat) (hf : t.length < fuel) :
    Buf.cstring fuel (pre.map some ++ (t.map some ++ some 0 :: jt)) pre.length
      = Mem.ok (t.takeWhile (fun x => decide (x ≠ 0))) := by
  induction t generalizing pre fuel with
  | nil =>
    cases fuel with
    | zero => omega
    | succ f =>
      have h := load_append pre 0 jt
      simp only [List.map_nil, List.nil_append, Buf.cstring, h]
      simp
  | cons x t ih =>
    cases fuel with
    | zero => omega
    | succ f =>
      have h := load_append pre x (t.map some ++ some 0 :: jt)
      simp only [List.map_cons, List.cons_append, Buf.cstring, h]
      by_cases hx : x = 0
      · simp [hx]
      · have ih' := ih (pre ++ [x]) f (by simpa using hf)
        simp only [List.length_append, List.length_singleton, List.map_append, List.map_cons,
          List.map_nil, List.append_assoc, List.singleton_append] at ih'
        simp [hx, ih']

/-- `cursor_position` never faults, and its result is the one read off the
input by `received` and `unread`. -/
theorem cursor_position_eq (wr : Int) (io : Tio) :
    cursor_position wr io = Mem.ok (cursorPositionOf wr io) := by
  unfold cursor_position cursorPositionOf
  by_cases hw : wr ≠ 4
  · simp [hw]
  simp only [hw, if_false]
  obtain ⟨junk', hl, he⟩ := cp_loop_eq 31 [] (List.replicate 32 none) io.input (by simp)
  simp only [List.length_nil, List.map_nil, List.nil_append, Nat.zero_add] at he
  have hr := received_length_le 31 io.input
  rcases junk' with _ | ⟨j, jt⟩
  · simp at hl
    omega
  rw [he]
  simp only [store_append]
  rcases hR : received 31 io.input with _ | ⟨a, _ | ⟨b, t⟩⟩
  · have h0 := load_append [] 0 jt
    simp only [List.map_nil, List.nil_append, List.length_nil] at h0
    simp [h0]
  · have h0 := load_append [] a (some 0 :: jt)
    have h1 := load_append [a] 0 jt
    simp only [List.map_nil, List.nil_append, List.length_nil] at h0
    simp only [List.map_cons, List.map_nil, List.cons_append, List.nil_append,
      List.length_singleton] at h1
    by_cases ha : a = 27
    · subst ha
      simp [h0, h1]
    · simp [h0, ha]
  · have h0 := load_append [] a (some b :: (t.map some ++ some 0 :: jt))
    have h1 := load_append [a] b (t.map some ++ some 0 :: jt)
    have hc := cstring_append t [a, b] jt 33 (by rw [hR] at hr; simp at hr; omega)
    simp only [List.map_nil, List.nil_append, List.length_nil] at h0
    simp only [List.map_cons, List.map_nil, List.cons_append, List.nil_append,
      List.length_singleton] at h1
    simp only [List.map_cons, List.map_nil, List.cons_append, List.nil_append,
      List.length_cons, List.length_nil, Nat.zero_add, Nat.reduceAdd] at hc
    by_cases ha : a = 27
    · subst ha
      by_cases hb : b = 91
      · subst hb
        simp only [List.map_cons, List.cons_append, h0, h1, hc]
        cases sscanf (List.takeWhile (fun x => decide (x ≠ 0)) t) <;> simp
      · simp [h0, h1, hb]
    · simp [h0, ha]

/-! ### Decimal numbers -/

theorem decimalCore_isDigit (f n : Nat) (acc : List Nat)
    (hacc : ∀ d ∈ acc, isDigit d = true) : ∀ d ∈ decimalCore f n acc, isDigit d = true := by
  induction f generalizing n acc with
  | zero => simpa [decimalCore] using hacc
  | succ f ih =>
    unfold decimalCore
    split
    · rename_i h
      intro d hd
      rcases List.mem_cons.mp hd with rfl | hd
      · simp [isDigit]
        omega
      · exact hacc d hd
    · apply ih
      intro d hd
      rcases List.mem_cons.mp hd with rfl | hd
      · simp [isDigit]
        omega
      · exact hacc d hd

theorem decimalCore_length_ge (f n : Nat) (acc : List Nat) :
    acc.length ≤ (decimalCore f n acc).length := by
  induction f generalizing n acc with
  | zero => simp [decimalCore]
  | succ f ih =>
    unfold decimalCore
    split
    · simp
    · have := ih (n / 10) ((48 + n % 10) :: acc)
      simp at this
      omega

theorem decimalCore_length_le (f n k : Nat) (acc : List Nat) (hk : 1 ≤ k) (hn : n < 10 ^ k) :
    (decimalCore f n acc).length ≤ k + acc.length := by
  induction f generalizing n k acc with
  | zero =>
    simp [decimalCore]
  | succ f ih =>
    unfold decimalCore
    split
    · simp
      omega
    · rename_i h
      have hk2 : 2 ≤ k := by
        by_contra hc
        have : k = 1 := by omega
        subst this
        omega
      have hdiv : n / 10 < 10 ^ (k - 1) := by
        have : 10 ^ k = 10 ^ (k - 1) * 10 := by
          rw [← pow_succ]
          congr 1
          omega
        rw [this] at hn
        exact Nat.div_lt_of_lt_mul (by rw [Nat.mul_comm]; exact hn)
      have := ih (n / 10) (k - 1) ((48 + n % 10) :: acc) (by omega) hdiv
      simp at this
      omega

theorem digitsValue_foldl (l : List Nat) (a : Nat) :
    l.foldl (fun a d => 10 * a + (d - 48)) a = a * 10 ^ l.length + digitsValue l := by
  unfold digitsValue
  induction l generalizing a with
  | nil => simp
  | cons x l ih =>
    simp only [List.foldl_cons, List.length_cons]
    rw [ih (10 * a + (x - 48)), ih (10 * 0 + (x - 48))]
    ring

theorem digitsValue_cons (x : Nat) (l : List Nat) :
    digitsValue (x :: l) = (x - 48) * 10 ^ l.length + digitsValue l := by
  have := digitsValue_foldl l (10 * 0 + (x - 48))
  simpa [digitsValue] using this

theorem decimalCore_value (f n : Nat) (acc : List Nat) (hf : n < f) :
    digitsValue (decimalCore f n acc) = n * 10 ^ acc.length + digitsValue acc := by
  induction f generalizing n acc with
  | zero => omega
  | succ f ih =>
    unfold decimalCore
    split
    · rw [digitsValue_cons]
      simp
    · rename_i h
      rw [ih (n / 10) _ (by omega), digitsValue_cons]
      simp only [List.length_cons, Nat.add_sub_cancel_left, pow_succ]
      have := Nat.div_add_mod n 10
      calc n / 10 * (10 ^ acc.length * 10) + (n % 10 * 10 ^ acc.length + digitsValue acc)
          = (10 * (n / 10) + n % 10) * 10 ^ acc.length + digitsValue acc := by ring
        _ = n * 10 ^ acc.length + digitsValue acc := by rw [this]

theorem decimal_isDigit (n : Nat) : ∀ d ∈ decimal n, isDigit d = true :=
  decimalCore_isDigit (n + 1) n [] (by simp)

theorem decimal_value (n : Nat) : digitsValue (decimal n) = n := by
  have := decimalCore_value (n + 1) n [] (by omega)
  simpa [decimal, digitsValue] using this

theorem decimal_ne_nil (n : Nat) : decimal n ≠ [] := by
  unfold decimal decimalCore
  split
  · simp
  · intro h
    have := decimalCore_length_ge n (n / 10) [48 + n % 10]
    rw [h] at this
    simp at this

/-- A number that fits an `int` has at most ten decimal digits. -/
theorem decimal_length_le (n : Nat) (hn : n < 2 ^ 31) : (decimal n).length ≤ 10 := by
  have := decimalCore_length_le (n + 1) n 10 [] (by omega) (by omega)
  simpa [decimal] using this

/-- `%d` reads back a number written in decimal, up to the first byte that is
not a digit. -/
theorem scanInt_decimal (n : Nat) (rest : List Nat)
    (hrest : ∀ x, rest.head? = some x → isDigit x = false) :
    scanInt (decimal n ++ rest) = some ((n : Int), rest) := by
  have hd := decimal_isDigit n
  have hne := decimal_ne_nil n
  have hv := decimal_value n
  rcases hD : decimal n with _ | ⟨d, D⟩
  · exact absurd hD hne
  rw [hD] at hd hv
  have hd0 : isDigit d = true := hd d (by simp)
  have hdr : 48 ≤ d ∧ d ≤ 57 := by simpa [isDigit] using hd0
  have hsp : isSpace d = false := by
    simp [isSpace]
    omega
  have htake : List.takeWhile isDigit (d :: D ++ rest) = d :: D := by
    have h1 := @List.takeWhile_append_of_pos _ isDigit (d :: D) rest hd
    have h2 : List.takeWhile isDigit rest = [] := by
      rcases rest with _ | ⟨x, rest⟩
      · rfl
      · simp [List.takeWhile, hrest x rfl]
    rw [h1, h2]
    simp
  have hdrop : List.dropWhile isDigit (d :: D ++ rest) = rest := by
    have h1 := @List.dropWhile_append_of_pos _ isDigit (d :: D) rest hd
    have h2 : List.dropWhile isDigit rest = rest := by
      rcases rest with _ | ⟨x, rest⟩
      · rfl
      · simp [List.dropWhile, hrest x rfl]
    rw [h1, h2]
  have h45 : d ≠ 45 := by omega
  have h43 : d ≠ 43 := by omega
  unfold scanInt
  simp only [List.cons_append, List.dropWhile_cons, hsp, List.head?_cons]
  simp only [Bool.false_eq_true, if_false, Option.some.injEq, h45, h43, beq_iff_eq,
    Bool.or_self, List.head?_cons]
  have htake' : List.takeWhile isDigit (d :: (D ++ rest)) = d :: D := by simpa using htake
  have hdrop' : List.dropWhile isDigit (d :: (D ++ rest)) = rest := by simpa using hdrop
  simp [htake', hdrop', hv, h45, h43]

theorem sscanf_decimal (r c : Nat) : sscanf (decimal r ++ 59 :: decimal c) = Scanned.two r c := by
  have h1 := scanInt_decimal r (59 :: decimal c) (by intro x hx; simp at hx; subst hx; decide)
  have h2 := scanInt_decimal c [] (by simp)
  rw [List.append_nil] at h2
  unfold sscanf
  rw [h1]
  simp only [h2]

theorem received_bytes (n : Nat) (l : List Nat) (rest : List Rd) (hl : l.length < n)
    (hR : 82 ∉ l) :
    received n (l.map Rd.byte ++ Rd.byte 82 :: rest) = l ∧
    unread n (l.map Rd.byte ++ Rd.byte 82 :: rest) = rest := by
  induction l generalizing n with
  | nil =>
    cases n with
    | zero => simp at hl
    | succ n => simp [received, unread]
  | cons x l ih =>
    cases n with
    | zero => simp at hl
    | succ n =>
      have hx : x ≠ 82 := fun h => hR (by simp [h])
      have := ih n (by simpa using hl) (fun h => hR (List.mem_cons_of_mem _ h))
      simp [received, unread, hx, this]

/-- The text of a cursor-position report in front of its `R`. -/
theorem report_text (r c : Nat) (hr : r < 2 ^ 31) (hc : c < 2 ^ 31) :
    ([27, 91] ++ decimal r ++ [59] ++ decimal c).length < 31 ∧
    82 ∉ [27, 91] ++ decimal r ++ [59] ++ decimal c ∧
    (∀ x ∈ decimal r ++ 59 :: decimal c, x ≠ 0) := by
  have h1 := decimal_length_le r hr
  have h2 := decimal_length_le c hc
  have d1 := decimal_isDigit r
  have d2 := decimal_isDigit c
  have dig : ∀ x, isDigit x = true → x ≠ 82 ∧ x ≠ 0 := by
    intro x hx
    simp [isDigit] at hx
    omega
  refine ⟨by simp; omega, ?_, ?_⟩
  · intro h
    simp only [List.mem_append, List.mem_cons, List.mem_singleton, List.not_mem_nil,
      or_false] at h
    rcases h with ((h | h) | h) | h
    · omega
    · exact (dig _ (d1 _ h)).1 rfl
    · omega
    · exact (dig _ (d2 _ h)).1 rfl
  · intro x hx
    simp only [List.mem_append, List.mem_cons] at hx
    rcases hx with h | h | h
    · exact (dig _ (d1 _ h)).2
    · omega
    · exact (dig _ (d2 _ h)).2

/-- On a report `ESC [ r ; c R` whose numbers fit an `int`, `cursor_position`
succeeds with these numbers and reads exactly the report. -/
theorem cursor_position_report (r c : Nat) (rest : List Rd) (out : List (List Nat))
    (hr : r < 2 ^ 31) (hc : c < 2 ^ 31) :
    cursor_position 4 ⟨cursorReport r c ++ rest, out⟩
      = Mem.ok (CpRet.ok r c ⟨rest, out ++ [[27, 91, 54, 110]]⟩) := by
  obtain ⟨hlen, h82, hnz⟩ := report_text r c hr hc
  have hin : cursorReport r c ++ rest
      = ([27, 91] ++ decimal r ++ [59] ++ decimal c).map Rd.byte ++ Rd.byte 82 :: rest := by
    simp [cursorReport]
  obtain ⟨hrecv, hunr⟩ := received_bytes 31 _ rest hlen h82
  rw [cursor_position_eq]
  unfold cursorPositionOf
  simp only [hin, hrecv, hunr]
  have htw : List.takeWhile (fun x => !decide (x = 0)) (decimal r ++ 59 :: decimal c)
      = decimal r ++ 59 :: decimal c := by
    rw [List.takeWhile_eq_self_iff]
    intro x hx
    simpa using hnz x hx
  simp [htw, sscanf_decimal]

theorem formatInt_natCast (n : Nat) : formatInt (n : Int) = decimal n := by
  unfold formatInt
  have : ¬ ((n : Int) < 0) := by omega
  simp [this]

theorem restoreSeq_natCast (r c : Nat) (hr : r < 2 ^ 31) (hc : c < 2 ^ 31) :
    restoreSeq r c = [27, 91] ++ decimal r ++ [59] ++ decimal c ++ [72] := by
  unfold restoreSeq
  rw [formatInt_natCast, formatInt_natCast]
  have h1 := decimal_length_le r hr
  have h2 := decimal_length_le c hc
  apply List.take_of_length_le
  simp
  omega

/-! ## Geometry prober: claims -/

/-- C11: when `ioctl` succeeds and reports a non-zero column count,
`screen_size` succeeds with the reported rows and columns, writes nothing and
reads nothing, and `lscreen_size` gives (columns, rows). -/
theorem screen_size_fast_path (z : Winsize) (w1 w2 w3 w4 : Int) (io : Tio)
    (hcol : z.ws_col ≠ 0) :
    screen_size (some z) w1 w2 w3 w4 io = Mem.ok (CpRet.ok z.ws_row z.ws_col io) ∧
    lscreen_size (some z) w1 w2 w3 w4 io = Mem.ok (LuaSize.values z.ws_col z.ws_row io) := by
  have h : screen_size (some z) w1 w2 w3 w4 io = Mem.ok (CpRet.ok z.ws_row z.ws_col io) := by
    simp [screen_size, hcol]
  exact ⟨h, by simp [lscreen_size, h]⟩

theorem screen_size_fast_path_witness :
    screen_size (some ⟨24, 80⟩) 4 12 4 0 ⟨cursorReport 1 1, []⟩
      = Mem.ok (CpRet.ok 24 80 ⟨cursorReport 1 1, []⟩) ∧
    lscreen_size (some ⟨24, 80⟩) 4 12 4 0 ⟨cursorReport 1 1, []⟩
      = Mem.ok (LuaSize.values 80 24 ⟨cursorReport 1 1, []⟩) :=
  screen_size_fast_path ⟨24, 80⟩ 4 12 4 0 ⟨cursorReport 1 1, []⟩ (by decide)

/-- C12 (counterexample): the first report carries the row number 10^29, a
positive integer of thirty digits.  The 32-byte buffer of `cursor_position`
takes ESC, `[` and twenty-nine digits; no `;` is among them, `sscanf` stores
one number only, and `screen_size` fails. -/
theorem screen_size_fails_on_long_report :
    0 < 100000000000000000000000000000 ∧
    screen_size none 4 12 4 4
        ⟨cursorReport 100000000000000000000000000000 1 ++ cursorReport 24 80, []⟩
      = Mem.ok (CpRet.failed
          ⟨[Rd.byte 48, Rd.byte 59, Rd.byte 49, Rd.byte 82] ++ cursorReport 24 80,
            [[27, 91, 54, 110]]⟩) := by
  decide

/-- C12 (amended): when `ioctl` fails or reports zero columns and the terminal
answers the two cursor-position requests with `ESC [ r0 ; c0 R` and
`ESC [ r ; c R`, all four numbers fitting an `int`, `screen_size` succeeds with
rows `r` and columns `c` of the second report, having written `ESC[6n`,
`ESC[999C ESC[999B`, `ESC[6n` and `ESC[r0;c0H` in this order and read exactly
the two reports; the return value `w4` of the last write does not matter.
`lscreen_size` gives (`c`, `r`). -/
theorem screen_size_fallback (ws : Option Winsize) (r0 c0 r c : Nat) (w4 : Int)
    (rest : List Rd) (out : List (List Nat))
    (hws : ∀ z, ws = some z → z.ws_col = 0)
    (hr0 : r0 < 2 ^ 31) (hc0 : c0 < 2 ^ 31) (hr : r < 2 ^ 31) (hc : c < 2 ^ 31) :
    screen_size ws 4 12 4 w4 ⟨cursorReport r0 c0 ++ (cursorReport r c ++ rest), out⟩
      = Mem.ok (CpRet.ok r c ⟨rest,
          out ++ [[27, 91, 54, 110]] ++ [[27, 91, 57, 57, 57, 67, 27, 91, 57, 57, 57, 66]]
            ++ [[27, 91, 54, 110]]
            ++ [[27, 91] ++ decimal r0 ++ [59] ++ decimal c0 ++ [72]]⟩) ∧
    lscreen_size ws 4 12 4 w4 ⟨cursorReport r0 c0 ++ (cursorReport r c ++ rest), out⟩
      = Mem.ok (LuaSize.values c r ⟨rest,
          out ++ [[27, 91, 54, 110]] ++ [[27, 91, 57, 57, 57, 67, 27, 91, 57, 57, 57, 66]]
            ++ [[27, 91, 54, 110]]
            ++ [[27, 91] ++ decimal r0 ++ [59] ++ decimal c0 ++ [72]]⟩) := by
  have h1 := cursor_position_report r0 c0 (cursorReport r c ++ rest) out hr0 hc0
  have h2 := cursor_position_report r c rest
    (out ++ [[27, 91, 54, 110]] ++ [[27, 91, 57, 57, 57, 67, 27, 91, 57, 57, 57, 66]]) hr hc
  have h : screen_size ws 4 12 4 w4 ⟨cursorReport r0 c0 ++ (cursorReport r c ++ rest), out⟩
      = Mem.ok (CpRet.ok r c ⟨rest,
          out ++ [[27, 91, 54, 110]] ++ [[27, 91, 57, 57, 57, 67, 27, 91, 57, 57, 57, 66]]
            ++ [[27, 91, 54, 110]]
            ++ [[27, 91] ++ decimal r0 ++ [59] ++ decimal c0 ++ [72]]⟩) := by
    rcases ws with _ | z
    · simp only [screen_size, if_true, h1, ne_eq, not_true_eq_false, if_false, h2,
        restoreSeq_natCast r0 c0 hr0 hc0, ite_self]
    · have hz : z.ws_col = 0 := hws z rfl
      simp only [screen_size, hz, beq_self_eq_true, if_true, h1, ne_eq, not_true_eq_false,
        if_false, h2, restoreSeq_natCast r0 c0 hr0 hc0, ite_self]
  exact ⟨h, by simp only [lscreen_size, h]⟩

theorem screen_size_fallback_witness :
    screen_size none 4 12 4 (-1) ⟨cursorReport 24 80 ++ (cursorReport 24 80 ++ []), []⟩
      = Mem.ok (CpRet.ok 24 80 ⟨[],
          [] ++ [[27, 91, 54, 110]] ++ [[27, 91, 57, 57, 57, 67, 27, 91, 57, 57, 57, 66]]
            ++ [[27, 91, 54, 110]]
            ++ [[27, 91] ++ decimal 24 ++ [59] ++ decimal 80 ++ [72]]⟩) ∧
    lscreen_size none 4 12 4 (-1) ⟨cursorReport 24 80 ++ (cursorReport 24 80 ++ []), []⟩
      = Mem.ok (LuaSize.values 80 24 ⟨[],
          [] ++ [[27, 91, 54, 110]] ++ [[27, 91, 57, 57, 57, 67, 27, 91, 57, 57, 57, 66]]
            ++ [[27, 91, 54, 110]]
            ++ [[27, 91] ++ decimal 24 ++ [59] ++ decimal 80 ++ [72]]⟩) :=
  screen_size_fallback none 24 80 24 80 (-1) [] [] (by simp) (by decide) (by decide)
    (by decide) (by decide)

/-- C13 (counterexample): the reply `ESC [ 2 4 ; 8 0` stops before its `R`
(the next read times out, or the input ends); `cursor_position` returns 0 with
rows 24 and columns 80. -/
theorem cursor_position_accepts_reply_without_R :
    cursor_position 4 ⟨[27, 91, 50, 52, 59, 56, 48].map Rd.byte ++ [Rd.timeout], []⟩
      = Mem.ok (CpRet.ok 24 80 ⟨[], [[27, 91, 54, 110]]⟩) ∧
    cursor_position 4 ⟨[27, 91, 50, 52, 59, 56, 48].map Rd.byte, []⟩
      = Mem.ok (CpRet.ok 24 80 ⟨[], [[27, 91, 54, 110]]⟩) := by
  decide

/-- C13 (amended): `cursor_position` returns -1 when the request is not
written in full, when fewer than two bytes are received or the first two are
not ESC `[`, and when the text received after ESC `[`, cut at its first NUL, is
not read by `sscanf` as two numbers; when it is, and both numbers fit an
`int`, the call succeeds with these numbers, whether or not an `R` was
received.  "Received" are the bytes in front of the first `R` or the first
read that gives no byte, 31 at most. -/
theorem cursor_position_malformed (wr : Int) (io : Tio) :
    (wr ≠ 4 → ∃ io', cursor_position wr io = Mem.ok (CpRet.failed io')) ∧
    ((received 31 io.input).length < 2 →
      ∃ io', cursor_position wr io = Mem.ok (CpRet.failed io')) ∧
    (∀ a b t, received 31 io.input = a :: b :: t → a ≠ 27 ∨ b ≠ 91 →
      ∃ io', cursor_position wr io = Mem.ok (CpRet.failed io')) ∧
    (∀ t, received 31 io.input = 27 :: 91 :: t →
      (sscanf (t.takeWhile (fun x => decide (x ≠ 0)))).count ≠ 2 →
      ∃ io', cursor_position wr io = Mem.ok (CpRet.failed io')) ∧
    (∀ t r c, wr = 4 → received 31 io.input = 27 :: 91 :: t →
      sscanf (t.takeWhile (fun x => decide (x ≠ 0))) = Scanned.two r c →
      -2 ^ 31 ≤ r ∧ r < 2 ^ 31 → -2 ^ 31 ≤ c ∧ c < 2 ^ 31 →
      ∃ io', cursor_position wr io = Mem.ok (CpRet.ok r c io')) := by
  rw [cursor_position_eq]
  unfold cursorPositionOf
  by_cases hw : wr ≠ 4
  · have hf : ∃ io', Mem.ok (CpRet.failed ⟨io.input, io.writes ++ [[27, 91, 54, 110]]⟩)
        = Mem.ok (CpRet.failed io') := ⟨_, rfl⟩
    rw [if_pos hw]
    exact ⟨fun _ => hf, fun _ => hf, fun _ _ _ _ _ => hf, fun _ _ _ => hf,
      fun _ _ _ h => absurd h hw⟩
  rw [if_neg hw]
  refine ⟨fun h => absurd h hw, ?_, ?_, ?_, ?_⟩
  · intro h
    rcases hR : received 31 io.input with _ | ⟨a, _ | ⟨b, t⟩⟩
    · exact ⟨_, rfl⟩
    · exact ⟨_, rfl⟩
    · rw [hR] at h
      simp only [List.length_cons] at h
      omega
  · intro a b t hR hab
    have : ¬ (a = 27 ∧ b = 91) := by
      rintro ⟨h1, h2⟩
      rcases hab with h | h
      · exact h h1
      · exact h h2
    rw [hR]
    simp only [this, if_false]
    exact ⟨_, rfl⟩
  · intro t hR hs
    rw [hR]
    simp only [and_self, if_true]
    cases hsc : sscanf (t.takeWhile (fun x => decide (x ≠ 0))) with
    | two r c =>
      rw [hsc] at hs
      exact absurd rfl hs
    | eof => exact ⟨_, rfl⟩
    | zero => exact ⟨_, rfl⟩
    | one a => exact ⟨_, rfl⟩
  · intro t r c _ hR hs _ _
    rw [hR]
    simp only [and_self, if_true, hs]
    exact ⟨_, rfl⟩

theorem unread_consumed (n : Nat) (s : List Rd) : s.length ≤ (unread n s).length + n := by
  induction n generalizing s with
  | zero => simp [unread]
  | succ n ih =>
    rcases s with _ | ⟨r, s⟩
    · simp [unread]
    · cases r with
      | byte b =>
        by_cases hb : b = 82
        · simp [unread, hb]
        · have := ih s
          simp [unread, hb]
          omega
      | timeout => simp [unread]
      | fail => simp [unread]

theorem cursorPositionOf_input (wr : Int) (io : Tio) :
    (cursorPositionOf wr io).io.input = io.input ∨
    (cursorPositionOf wr io).io.input = unread 31 io.input := by
  unfold cursorPositionOf
  by_cases hw : wr ≠ 4
  · rw [if_pos hw]
    exact Or.inl rfl
  · rw [if_neg hw]
    right
    rcases received 31 io.input with _ | ⟨a, _ | ⟨b, t⟩⟩
    · rfl
    · rfl
    · simp only
      split_ifs
      · cases sscanf (List.takeWhile (fun x => decide (x ≠ 0)) t) <;> rfl
      · rfl

/-- C20: `cursor_position` stays inside `char buf[32]` on every input.  The
call never faults: no store or load leaves the array, and every cell loaded
(`buf[0]`, `buf[1]`, the text handed to `sscanf` up to its NUL) was stored to
before.  Its loop ends with `i ≤ 31`, the array still has 32 cells, the
terminator is stored at index `i`, and at most 31 answers of `read` have been
taken from the input. -/
theorem cursor_position_within_buffer (wr : Int) (io : Tio) :
    (∃ ret, cursor_position wr io = Mem.ok ret ∧ ret.io.input <:+ io.input ∧
      io.input.length ≤ ret.io.input.length + 31) ∧
    ∃ i buf rest, cp_loop 31 0 (List.replicate 32 none) io.input = Mem.ok (i, buf, rest) ∧
      i ≤ 31 ∧ buf.length = 32 ∧ (∃ buf', buf.store i 0 = Mem.ok buf' ∧ buf'.length = 32) ∧
      rest <:+ io.input ∧ io.input.length ≤ rest.length + 31 := by
  constructor
  · refine ⟨_, cursor_position_eq wr io, ?_⟩
    rcases cursorPositionOf_input wr io with h | h <;> rw [h]
    · exact ⟨List.suffix_refl _, by omega⟩
    · exact ⟨unread_suffix 31 _, unread_consumed 31 _⟩
  · obtain ⟨junk', hl, he⟩ := cp_loop_eq 31 [] (List.replicate 32 none) io.input (by simp)
    simp only [List.length_nil, List.map_nil, List.nil_append, Nat.zero_add] at he
    have hr := received_length_le 31 io.input
    refine ⟨_, _, _, he, hr, ?_, ?_, unread_suffix 31 _, unread_consumed 31 _⟩
    · simp [hl]
      omega
    · rcases junk' with _ | ⟨j, jt⟩
      · simp at hl
        omega
      · refine ⟨_, store_append _ j jt 0, ?_⟩
        simp at hl ⊢
        omega

/-! ## Key decoder: further lemmas and claims -/

theorem read_suffix (s : List Rd) : (read s).2 <:+ s := by
  cases s with
  | nil => exact List.suffix_refl _
  | cons r t => exact List.suffix_cons r t

/-- What a turn of the loop that returns leaves unread is a suffix of the
input. -/
theorem esc_case_ret_suffix {q : Seq} {s rest : List Rd} {key : Int}
    (h : esc_case q s = Turn.ret key rest) : rest <:+ s := by
  have s0 := read_suffix s
  have s1 := (read_suffix (read s).2).trans s0
  have s2 := (read_suffix (read (read s).2).2).trans s1
  unfold esc_case at h
  by_cases h0 : (read s).1.nread = 0
  · simp only [h0, if_true, Turn.ret.injEq] at h
    obtain ⟨-, rfl⟩ := h
    exact s0
  by_cases h1 : (read (read s).2).1.nread = 0
  · simp only [h0, h1, if_true, if_false, Turn.ret.injEq] at h
    obtain ⟨-, rfl⟩ := h
    exact s1
  simp only [h0, h1, if_false] at h
  split_ifs at h <;> simp only [Turn.ret.injEq, reduceCtorEq] at h <;>
    (obtain ⟨-, rfl⟩ := h; first | exact s1 | exact s2)

/-- What a turn of the loop that ends in `break` leaves unread is a suffix of
the input. -/
theorem esc_case_again_suffix {q q' : Seq} {s rest : List Rd}
    (h : esc_case q s = Turn.again q' rest) : rest <:+ s := by
  have s0 := read_suffix s
  have s1 := (read_suffix (read s).2).trans s0
  have s2 := (read_suffix (read (read s).2).2).trans s1
  unfold esc_case at h
  by_cases h0 : (read s).1.nread = 0
  · simp [h0] at h
  by_cases h1 : (read (read s).2).1.nread = 0
  · simp [h0, h1] at h
  simp only [h0, h1, if_false] at h
  split_ifs at h <;> simp only [Turn.again.injEq, reduceCtorEq] at h <;>
    (obtain ⟨-, rfl⟩ := h; first | exact s1 | exact s2)

/-- Once `c` holds ESC, the loop of `read_key` returns a key on every input;
it neither exits nor spins. -/
theorem read_key_esc_returns (q : Seq) (s : List Rd) :
    ∃ key rest, read_key_esc q s = Outcome.ret key rest ∧ rest <:+ s := by
  obtain ⟨n, hn⟩ : ∃ n, s.length = n := ⟨_, rfl⟩
  induction n using Nat.strong_induction_on generalizing q s with
  | _ n ih =>
    rw [read_key_esc_eq]
    cases h : esc_case q s with
    | ret key rest => exact ⟨key, rest, rfl, esc_case_ret_suffix h⟩
    | again q' rest =>
      have hlt := esc_case_again_lt h
      obtain ⟨key, rest', he, hs⟩ := ih rest.length (by omega) q' rest rfl
      exact ⟨key, rest', he, hs.trans (esc_case_again_suffix h)⟩

/-- C15 (failing input): a follow-up read that fails does not end the
process.  After ESC, a failed read followed by a timeout gives ESC; and after
the unrecognised ESC `[` `Z`, a failed read followed by `A` gives ARROW_UP,
decoded from the `[` left in `seq[0]` by the turn before.  Only the very first
read ends the process when it fails. -/
theorem read_key_survives_failed_followup_read (sgn : Bool) (q : Seq) :
    read_key sgn q [.byte 27, .fail, .timeout] = .ret ESC [] ∧
    read_key sgn q [.byte 27, .byte 91, .byte 90, .fail, .byte 65] = .ret ARROW_UP [] ∧
    read_key sgn q [.fail, .byte 65] = .exit 1 [.byte 65] := by
  refine ⟨?_, ?_, ?_⟩ <;>
    simp [read_key, read_key_switch, read_key_esc_eq, esc_case, read, charToInt, Rd.nread,
      Seq.rd0, Seq.rd1, Seq.rd2, ESC]

/-- C18: on an input made of at least one byte followed by any number of read
timeouts, `read_key` returns a key, and what it leaves unread is a suffix of
the input: it never spins and never reads past the end. -/
theorem read_key_progress (sgn : Bool) (q : Seq) (bs : List Nat) (n : Nat) (hbs : bs ≠ []) :
    ∃ key rest,
      read_key sgn q (bs.map Rd.byte ++ List.replicate n Rd.timeout) = Outcome.ret key rest ∧
      rest <:+ bs.map Rd.byte ++ List.replicate n Rd.timeout := by
  rcases bs with _ | ⟨b, bs⟩
  · exact absurd rfl hbs
  simp only [List.map_cons, List.cons_append, read_key, read_key_switch]
  split
  · obtain ⟨key, rest, he, hs⟩ :=
      read_key_esc_returns q (bs.map Rd.byte ++ List.replicate n Rd.timeout)
    exact ⟨key, rest, he, hs.trans (List.suffix_cons _ _)⟩
  · exact ⟨_, _, rfl, List.suffix_cons _ _⟩

theorem read_key_progress_witness :
    ∃ key rest,
      read_key true ⟨0, 0, 0⟩ ([27, 120, 121, 113].map Rd.byte ++ List.replicate 1 Rd.timeout)
        = Outcome.ret key rest ∧
      rest <:+ [27, 120, 121, 113].map Rd.byte ++ List.replicate 1 Rd.timeout :=
  read_key_progress true ⟨0, 0, 0⟩ [27, 120, 121, 113] 1 (by decide)

/-- C19 (failing input): the Home sequence and the literal byte 237 give
different key codes and the same name, the one-byte string 237; likewise the
End sequence and the literal byte 238.  HOME_KEY and END_KEY have no case in
the `switch` of `lnext_keypress` and fall to its `default`. -/
theorem home_end_names_collide (sgn : Bool) (q : Seq) :
    read_key sgn q [.byte 27, .byte 91, .byte 72] = .ret HOME_KEY [] ∧
    read_key sgn q [.byte 237] = .ret (charToInt sgn 237) [] ∧
    HOME_KEY ≠ charToInt sgn 237 ∧
    lnext_keypress sgn q [.byte 27, .byte 91, .byte 72] = .ret [237] [] ∧
    lnext_keypress sgn q [.byte 237] = .ret [237] [] ∧
    read_key sgn q [.byte 27, .byte 91, .byte 70] = .ret END_KEY [] ∧
    read_key sgn q [.byte 238] = .ret (charToInt sgn 238) [] ∧
    END_KEY ≠ charToInt sgn 238 ∧
    lnext_keypress sgn q [.byte 27, .byte 91, .byte 70] = .ret [238] [] ∧
    lnext_keypress sgn q [.byte 238] = .ret [238] [] := by
  have e1 : read_key sgn q [.byte 27, .byte 91, .byte 72] = .ret HOME_KEY [] := by
    simp [read_key, read_key_switch, read_key_esc_eq, esc_case, read, charToInt, Rd.nread,
      Seq.rd0, Seq.rd1, ESC]
  have e2 : read_key sgn q [.byte 27, .byte 91, .byte 70] = .ret END_KEY [] := by
    simp [read_key, read_key_switch, read_key_esc_eq, esc_case, read, charToInt, Rd.nread,
      Seq.rd0, Seq.rd1, ESC]
  have p1 := lnext_keypress_plain_byte sgn q 237 [] (by decide) (by decide) (by decide)
  have p2 := lnext_keypress_plain_byte sgn q 238 [] (by decide) (by decide) (by decide)
  refine ⟨e1, p1.1, ?_, ?_, p1.2, e2, p2.1, ?_, ?_, p2.2⟩
  · cases sgn <;> decide
  · unfold lnext_keypress
    rw [e1]
    rfl
  · cases sgn <;> decide
  · unfold lnext_keypress
    rw [e2]
    rfl

/-! ## Raw-mode controller: sequences of calls and exit -/

theorem disable_raw_mode_rawmode (ok : Bool) (w : World) :
    (disable_raw_mode ok w).rawmode = 0 := by
  unfold disable_raw_mode
  split
  · rfl
  · rename_i h
    simpa using h

theorem disable_raw_mode_inactive (ok : Bool) (w : World) (h : w.rawmode = 0) :
    disable_raw_mode ok w = w := by
  simp [disable_raw_mode, h]

theorem disable_raw_mode_active (ok : Bool) (w : World) (h : w.rawmode ≠ 0) :
    disable_raw_mode ok w =
      { w with
        rawmode := 0
        tty := if ok then w.orig_termios else w.tty
        inq := if ok then [] else w.inq
        tcsets := w.tcsets ++ [w.orig_termios] } := by
  cases ok <;> simp [disable_raw_mode, h, tcsetattr]

theorem run_hooks_inactive (n : Nat) (ok : Nat → Bool) (w : World) (h : w.rawmode = 0) :
    run_hooks n ok w = w := by
  induction n with
  | zero => rfl
  | succ n ih => rw [run_hooks, disable_raw_mode_inactive _ _ h, ih]

/-- With at least one registration, `exit` amounts to one call of
`disable_raw_mode`: the registrations called after it find the state
inactive. -/
theorem exit_hooks_eq (ok : Nat → Bool) (w : World) (h : 0 < w.atexit) :
    exit_hooks ok w = disable_raw_mode (ok (w.atexit - 1)) w := by
  unfold exit_hooks
  obtain ⟨n, hn⟩ : ∃ n, w.atexit = n + 1 := ⟨w.atexit - 1, by omega⟩
  rw [hn, run_hooks, run_hooks_inactive _ _ _ (disable_raw_mode_rawmode _ _)]
  simp

/-- The active state is entered only after a registration with `atexit`. -/
theorem Call.run_registered (k : Consts) (w : World) (c : Call)
    (h : w.rawmode ≠ 0 → 0 < w.atexit) :
    (c.run k w).rawmode ≠ 0 → 0 < (c.run k w).atexit := by
  cases c with
  | enable getOk setOk =>
    unfold Call.run enable_raw_mode
    by_cases h0 : w.rawmode ≠ 0
    · simpa [h0] using h h0
    · cases w.isatty <;> cases getOk <;> cases setOk <;>
        simp [h0, enable_fatal, tcsetattr]
  | disable setOk =>
    intro h'
    exact absurd (disable_raw_mode_rawmode setOk w) h'

theorem runCalls_registered (k : Consts) (cs : List Call) (w : World)
    (h : w.rawmode ≠ 0 → 0 < w.atexit) :
    (runCalls k w cs).rawmode ≠ 0 → 0 < (runCalls k w cs).atexit := by
  induction cs generalizing w with
  | nil => exact h
  | cons c cs ih => exact ih (c.run k w) (Call.run_registered k w c h)

/-- C16 (counterexample): raw mode is activated and the process exits; the
`tcsetattr` of the exit hook fails.  One restoring call is made and the state
becomes inactive, but the terminal keeps attributes that differ from the
snapshot. -/
theorem exit_leaves_raw_when_restore_fails :
    (runCalls linux cookedWorld [.enable true true]).rawmode ≠ 0 ∧
    (exit_hooks (fun _ => false) (runCalls linux cookedWorld [.enable true true])).rawmode = 0 ∧
    (exit_hooks (fun _ => false) (runCalls linux cookedWorld [.enable true true])).tcsets.length
      = (runCalls linux cookedWorld [.enable true true]).tcsets.length + 1 ∧
    (exit_hooks (fun _ => false) (runCalls linux cookedWorld [.enable true true])).tty
      ≠ (exit_hooks (fun _ => false)
          (runCalls linux cookedWorld [.enable true true])).orig_termios := by
  decide

/-- C16 (amended): after any sequence of `enable_raw_mode` and
`disable_raw_mode` calls from the inactive state, the exit hooks make exactly
one `tcsetattr` call, with the snapshot, if the state is active at exit, and
none if it is inactive; afterwards the state is inactive.  The terminal has
the attributes of the snapshot if that one call succeeds; if it fails, and
when the state is inactive at exit, the terminal attributes are left as they
are. -/
theorem exit_restores_once (k : Consts) (cs : List Call) (w0 : World) (ok : Nat → Bool)
    (h0 : w0.rawmode = 0) :
    (exit_hooks ok (runCalls k w0 cs)).rawmode = 0 ∧
    (exit_hooks ok (runCalls k w0 cs)).orig_termios = (runCalls k w0 cs).orig_termios ∧
    ((runCalls k w0 cs).rawmode ≠ 0 →
      (exit_hooks ok (runCalls k w0 cs)).tcsets
        = (runCalls k w0 cs).tcsets ++ [(runCalls k w0 cs).orig_termios] ∧
      (ok ((runCalls k w0 cs).atexit - 1) = true →
        (exit_hooks ok (runCalls k w0 cs)).tty = (runCalls k w0 cs).orig_termios) ∧
      (ok ((runCalls k w0 cs).atexit - 1) = false →
        (exit_hooks ok (runCalls k w0 cs)).tty = (runCalls k w0 cs).tty)) ∧
    ((runCalls k w0 cs).rawmode = 0 →
      exit_hooks ok (runCalls k w0 cs) = runCalls k w0 cs) := by
  have hreg := runCalls_registered k cs w0 (fun h => absurd h0 h)
  generalize runCalls k w0 cs = w at hreg ⊢
  by_cases hw : w.rawmode = 0
  · have he : exit_hooks ok w = w := run_hooks_inactive _ _ _ hw
    rw [he]
    exact ⟨hw, rfl, fun h => absurd hw h, fun _ => rfl⟩
  · rw [exit_hooks_eq ok w (hreg hw), disable_raw_mode_active _ _ hw]
    refine ⟨rfl, rfl, fun _ => ⟨rfl, fun h => ?_, fun h => ?_⟩, fun h => absurd h hw⟩
    · simp [h]
    · simp [h]

theorem exit_restores_once_witness :
    (exit_hooks (fun _ => true) (runCalls linux cookedWorld sampleCalls)).rawmode = 0 ∧
    (exit_hooks (fun _ => true) (runCalls linux cookedWorld sampleCalls)).orig_termios
      = (runCalls linux cookedWorld sampleCalls).orig_termios ∧
    ((runCalls linux cookedWorld sampleCalls).rawmode ≠ 0 →
      (exit_hooks (fun _ => true) (runCalls linux cookedWorld sampleCalls)).tcsets
        = (runCalls linux cookedWorld sampleCalls).tcsets
          ++ [(runCalls linux cookedWorld sampleCalls).orig_termios] ∧
      ((fun _ => true) ((runCalls linux cookedWorld sampleCalls).atexit - 1) = true →
        (exit_hooks (fun _ => true) (runCalls linux cookedWorld sampleCalls)).tty
          = (runCalls linux cookedWorld sampleCalls).orig_termios) ∧
      ((fun _ => true) ((runCalls linux cookedWorld sampleCalls).atexit - 1) = false →
        (exit_hooks (fun _ => true) (runCalls linux cookedWorld sampleCalls)).tty
          = (runCalls linux cookedWorld sampleCalls).tty)) ∧
    ((runCalls linux cookedWorld sampleCalls).rawmode = 0 →
      exit_hooks (fun _ => true) (runCalls linux cookedWorld sampleCalls)
        = runCalls linux cookedWorld sampleCalls) :=
  exit_restores_once linux sampleCalls cookedWorld (fun _ => true) (by decide)

/-! ### The snapshot -/

/-- While every restoring `tcsetattr` succeeds, the terminal has the
attributes `a` whenever the state is inactive and the snapshot is `a` whenever
it is active; a call keeps this. -/
theorem Call.run_snapshot (k : Consts) (a : Termios) (w : World) (c : Call)
    (hc : c.restoreOk = true)
    (h : (w.rawmode = 0 → w.tty = a) ∧ (w.rawmode ≠ 0 → w.orig_termios = a)) :
    ((c.run k w).rawmode = 0 → (c.run k w).tty = a) ∧
    ((c.run k w).rawmode ≠ 0 → (c.run k w).orig_termios = a) := by
  cases c with
  | enable getOk setOk =>
    unfold Call.run enable_raw_mode
    by_cases h0 : w.rawmode ≠ 0
    · simpa [h0] using h
    · have ht : w.tty = a := h.1 (by simpa using h0)
      cases w.isatty <;> cases getOk <;> cases setOk <;>
        simp [h0, enable_fatal, tcsetattr, ht]
  | disable setOk =>
    have hs : setOk = true := hc
    subst hs
    by_cases h0 : w.rawmode ≠ 0
    · rw [Call.run, disable_raw_mode_active _ _ h0]
      simp [h.2 h0]
    · have h0' : w.rawmode = 0 := by simpa using h0
      rw [Call.run, disable_raw_mode_inactive _ _ h0']
      exact h

theorem runCalls_snapshot (k : Consts) (a : Termios) (cs : List Call) (w : World)
    (hcs : ∀ c ∈ cs, c.restoreOk = true)
    (h : (w.rawmode = 0 → w.tty = a) ∧ (w.rawmode ≠ 0 → w.orig_termios = a)) :
    ((runCalls k w cs).rawmode = 0 → (runCalls k w cs).tty = a) ∧
    ((runCalls k w cs).rawmode ≠ 0 → (runCalls k w cs).orig_termios = a) := by
  induction cs generalizing w with
  | nil => exact h
  | cons c cs ih =>
    exact ih (c.run k w) (fun c' hc' => hcs c' (List.mem_cons_of_mem _ hc'))
      (Call.run_snapshot k a w c (hcs c (List.mem_cons_self _ _)) h)

/-- C17 (counterexample): raw mode is activated, `disable_raw_mode` is called
and its `tcsetattr` fails, raw mode is activated again.  The state is active
and the snapshot holds the raw attributes, not the ones the terminal had before
the first activation. -/
theorem snapshot_replaced_after_failed_restore :
    (runCalls linux cookedWorld
      [.enable true true, .disable false, .enable true true]).rawmode ≠ 0 ∧
    (runCalls linux cookedWorld
      [.enable true true, .disable false, .enable true true]).orig_termios
      ≠ cookedWorld.tty ∧
    (runCalls linux cookedWorld
      [.enable true true, .disable false, .enable true true]).orig_termios
      = (runCalls linux cookedWorld [.enable true true]).tty := by
  decide

/-- C17 (amended): `enable_raw_mode` in the active state returns 0 and changes
nothing; and after any sequence of calls from the inactive state in which
every `tcsetattr` of `disable_raw_mode` succeeds, the snapshot, whenever the
state is active, is the attribute set the terminal had at the start, that is,
before the first successful activation. -/
theorem snapshot_is_original (k : Consts) (cs : List Call) (w0 : World)
    (h0 : w0.rawmode = 0) (hcs : ∀ c ∈ cs, c.restoreOk = true) :
    (∀ (getOk setOk : Bool) (w : World), w.rawmode ≠ 0 →
      enable_raw_mode k getOk setOk w = (0, w)) ∧
    ((runCalls k w0 cs).rawmode ≠ 0 → (runCalls k w0 cs).orig_termios = w0.tty) ∧
    ((runCalls k w0 cs).rawmode = 0 → (runCalls k w0 cs).tty = w0.tty) := by
  have h := runCalls_snapshot k w0.tty cs w0 hcs ⟨fun _ => rfl, fun h => absurd h0 h⟩
  refine ⟨fun getOk setOk w hw => ?_, h.2, h.1⟩
  simp [enable_raw_mode, hw]

theorem snapshot_is_original_witness :
    (∀ (getOk setOk : Bool) (w : World), w.rawmode ≠ 0 →
      enable_raw_mode linux getOk setOk w = (0, w)) ∧
    ((runCalls linux cookedWorld sampleCalls).rawmode ≠ 0 →
      (runCalls linux cookedWorld sampleCalls).orig_termios = cookedWorld.tty) ∧
    ((runCalls linux cookedWorld sampleCalls).rawmode = 0 →
      (runCalls linux cookedWorld sampleCalls).tty = cookedWorld.tty) :=
  snapshot_is_original linux sampleCalls cookedWorld (by decide) (by decide)

end Ry
